import Mathlib

/-!
Verification development for the `parse` core of `src/Search.tsx`
(react-search-input): a character-level scanner that turns an input string
plus an option schema into a token stream, a structured result and at most
one parse error.

The embedding works over `List Char` (JS strings are indexed one code unit
at a time by the scanner loop). Stateful scanner variables become the
fields of `ParseState`; the JS `throw new Error('logic error')` inside
`completeOptionValue` becomes the `none` case of an `Option` result, and
so does the implicit TypeError that pushing onto a `{value}` record would
raise. The JS `Number(...)`/`isNaN` test on a raw option value is modelled
syntactically by `jsNumberAccepts` (the ECMAScript StringNumericLiteral
grammar decides exactly when the conversion is NaN); the stored numeric
value keeps the raw string, since no observable property here depends on
the floating-point value itself.
-/

namespace SearchInput

/-- JS strings, one scanner position per entry. -/
abbrev Str := List Char

/-- Convenience injection of Lean string literals. -/
def lit (s : String) : Str := s.data

/-- Exactly the characters matched by the JS regex `\s` (also the
ECMAScript StrWhiteSpaceChar set used by `Number(...)` trimming). -/
def jsWhitespace (c : Char) : Bool :=
  c == ' ' || c == '\t' || c == '\n' || c == '\u000B' || c == '\u000C' || c == '\r' ||
  c == '\u00A0' || c == '\u1680' ||
  (0x2000 ≤ c.toNat && c.toNat ≤ 0x200A) ||
  c == '\u2028' || c == '\u2029' || c == '\u202F' || c == '\u205F' ||
  c == '\u3000' || c == '\uFEFF'

/-- The `escapeSequences` table of `Search.tsx` lines 84-88. -/
def escapeSequences (c : Char) : Option Char :=
  if c == 'n' then some '\n'
  else if c == '"' then some '"'
  else if c == '\\' then some '\\'
  else none

/-- The type tag of a `SearchOption` (`Search.tsx` lines 18-22); enum
choices ride on the tag. Presentation-only fields (`title`,
`description`, `default`, `suggestionProvider`) play no role in `parse`
and are omitted. -/
inductive OptionType where
  | number
  | string
  | enum (choices : List Str)
  | boolean
deriving DecidableEq, Repr

/-- One schema entry; `multiple` is the JS optional boolean, with absence
modelled as `false` (it is only ever read for truthiness). -/
structure SearchOption where
  name : Str
  multiple : Bool := false
  type : OptionType
deriving DecidableEq, Repr

/-- The token kind symbols of `Search.tsx` lines 31-41. -/
inductive TokenType where
  | space
  | text
  | numeric
  | enum
  | optionName
  | invalidOptionName
  | escapeSequence
  | invalidEscapeSequence
  | missingQuote
  | missingOptionValue
  | invalid
deriving DecidableEq, Repr

/-- The `suggest` field of a token: the union
`"none" | "options" | SearchOption` of `Search.tsx` line 60. The spec
payload is an `Option` because the JS code stores `currentOption as
SearchOption`, a cast that would silently admit `null`. -/
inductive Suggest where
  | none
  | options
  | spec (o : Option SearchOption)
deriving DecidableEq, Repr

structure Token where
  type : TokenType
  content : Str
  suggest : Suggest
deriving DecidableEq, Repr

/-- A value as stored into `result.options`: JS `true`/`false`, a string,
or the result of `Number(raw)` represented by the raw string it was
converted from (only converted when the conversion is not NaN). -/
inductive JsValue where
  | bool (b : Bool)
  | str (s : Str)
  | num (raw : Str)
deriving DecidableEq, Repr

/-- A single entry of `result.options`: `{value}` or `{values: [...]}`. -/
inductive StoredValue where
  | single (value : JsValue)
  | multi (values : List JsValue)
deriving DecidableEq, Repr

/-- Shape discriminator of a stored option entry. -/
def StoredValue.isMulti : StoredValue → Bool
  | .single _ => false
  | .multi _ => true

structure ParseError where
  position : Nat
  text : String
deriving DecidableEq, Repr

/-- `SearchParams` of `Search.tsx` lines 65-70; the string-keyed object
becomes an association list with replace-on-assign semantics. -/
structure SearchParams where
  text : List Str
  options : List (Str × StoredValue)
deriving DecidableEq, Repr

structure ParseResult where
  tokens : List Token
  error : Option ParseError
  result : Option SearchParams
deriving DecidableEq, Repr

/-- All mutable variables of the `parse` closure (`Search.tsx` lines
91-111) in one record. -/
structure ParseState where
  tokens : List Token := []
  text : List Str := []
  options : List (Str × StoredValue) := []
  error : Option ParseError := none
  currentTokenText : Str := []
  currentValue : Str := []
  inQuotes : Bool := false
  escaped : Bool := false
  inOptionValue : Bool := false
  currentOption : Option SearchOption := none
deriving DecidableEq, Repr

/-- Property lookup on the modelled string-keyed object. -/
def lookupStored : List (Str × StoredValue) → Str → Option StoredValue
  | [], _ => none
  | (k', v') :: rest, k => if k' = k then some v' else lookupStored rest k

/-- Property assignment on the modelled string-keyed object: replace the
existing binding or append a new one. -/
def setStored : List (Str × StoredValue) → Str → StoredValue → List (Str × StoredValue)
  | [], k, v => [(k, v)]
  | (k', v') :: rest, k, v =>
    if k' = k then (k, v) :: rest else (k', v') :: setStored rest k v

/-- Lookup in the `options` map that `parse` builds from its `config`
array (`Search.tsx` lines 97-102): keyed by `option.name`, later entries
overwriting earlier ones. -/
def findOption : List SearchOption → Str → Option SearchOption
  | [], _ => none
  | o :: rest, k =>
    match findOption rest k with
    | some o' => some o'
    | none => if o.name = k then some o else none

/-- `completeToken` (`Search.tsx` lines 175-190): push the token under
construction with its suggestion hint and reset the raw accumulator. -/
def completeToken (ty : TokenType) (st : ParseState) : ParseState :=
  let sg : Suggest :=
    if st.inOptionValue || ty == TokenType.missingOptionValue then .spec st.currentOption
    else if ty == TokenType.text || ty == TokenType.space then .options
    else .none
  { st with
    tokens := st.tokens ++ [{ type := ty, content := st.currentTokenText, suggest := sg }]
    currentTokenText := [] }

/-- `parseError` (`Search.tsx` lines 193-197): record an error only if
none is recorded yet. -/
def parseError (pos : Nat) (text : String) (st : ParseState) : ParseState :=
  if st.error = none then { st with error := some { position := pos, text := text } } else st

/-- Decimal digit of the StringNumericLiteral grammar. -/
def decDigit (c : Char) : Bool := 48 ≤ c.toNat && c.toNat ≤ 57

/-- Hexadecimal digit. -/
def hexDigit (c : Char) : Bool :=
  decDigit c || (97 ≤ c.toNat && c.toNat ≤ 102) || (65 ≤ c.toNat && c.toNat ≤ 70)

/-- Octal digit. -/
def octDigit (c : Char) : Bool := 48 ≤ c.toNat && c.toNat ≤ 55

/-- Binary digit. -/
def binDigit (c : Char) : Bool := c == '0' || c == '1'

/-- SignedInteger of the grammar: optional sign, then one or more decimal
digits. -/
def signedInteger (cs : Str) : Bool :=
  match cs with
  | '+' :: rest => !rest.isEmpty && rest.all decDigit
  | '-' :: rest => !rest.isEmpty && rest.all decDigit
  | rest => !rest.isEmpty && rest.all decDigit

/-- Optional ExponentPart followed by end of input. -/
def exponentTail (cs : Str) : Bool :=
  match cs with
  | [] => true
  | c :: rest => (c == 'e' || c == 'E') && signedInteger rest

/-- StrUnsignedDecimalLiteral: `Infinity`, digits with optional fraction
and exponent, or a leading fraction. -/
def strUnsignedDecimal (cs : Str) : Bool :=
  if cs = lit "Infinity" then true
  else
    let ip := cs.takeWhile decDigit
    match cs.dropWhile decDigit with
    | [] => !ip.isEmpty
    | '.' :: rest2 =>
      let fp := rest2.takeWhile decDigit
      (!ip.isEmpty || !fp.isEmpty) && exponentTail (rest2.dropWhile decDigit)
    | c :: rest2 => !ip.isEmpty && (c == 'e' || c == 'E') && signedInteger rest2

/-- StrDecimalLiteral: optionally signed unsigned decimal literal. -/
def strDecimal (cs : Str) : Bool :=
  match cs with
  | '+' :: rest => strUnsignedDecimal rest
  | '-' :: rest => strUnsignedDecimal rest
  | _ => strUnsignedDecimal cs

/-- StrNumericLiteral: a non-decimal `0x`/`0o`/`0b` integer literal
(unsigned) or a decimal literal. -/
def strNumeric (cs : Str) : Bool :=
  match cs with
  | '0' :: 'x' :: rest => !rest.isEmpty && rest.all hexDigit
  | '0' :: 'X' :: rest => !rest.isEmpty && rest.all hexDigit
  | '0' :: 'o' :: rest => !rest.isEmpty && rest.all octDigit
  | '0' :: 'O' :: rest => !rest.isEmpty && rest.all octDigit
  | '0' :: 'b' :: rest => !rest.isEmpty && rest.all binDigit
  | '0' :: 'B' :: rest => !rest.isEmpty && rest.all binDigit
  | _ => strDecimal cs

/-- Strip StrWhiteSpace from both ends. -/
def trimJsWs (cs : Str) : Str :=
  ((cs.dropWhile jsWhitespace).reverse.dropWhile jsWhitespace).reverse

/-- `!isNaN(Number(v))` for a JS string `v`: per ECMAScript ToNumber, the
trimmed string is empty (value 0) or matches StrNumericLiteral. -/
def jsNumberAccepts (v : Str) : Bool :=
  let t := trimJsWs v
  t.isEmpty || strNumeric t

/-- Result assembly (`Search.tsx` lines 160-168): append to the value
sequence of a multiple option (creating it if absent), or assign the
singleton value. `none` models the TypeError that `values.push` would
raise if the existing entry were a `{value}` record. -/
def storeOption (opt : SearchOption) (v : JsValue) (st : ParseState) : Option ParseState :=
  if opt.multiple then
    match lookupStored st.options opt.name with
    | none => some { st with options := setStored st.options opt.name (.multi [v]) }
    | some (.multi vs) => some { st with options := setStored st.options opt.name (.multi (vs ++ [v])) }
    | some (.single _) => none
  else
    some { st with options := setStored st.options opt.name (.single v) }

/-- `completeOptionValue` (`Search.tsx` lines 114-173). `none` models the
`throw new Error('logic error')` when no option is matched, and the
TypeError that `values.push` on a `{value}` record would raise. -/
def completeOptionValue (st : ParseState) : Option ParseState :=
  match st.currentOption with
  | none => none
  | some opt =>
    if st.currentValue.length = 0 then
      let st1 := completeToken .missingOptionValue st
      some { st1 with currentOption := none, inOptionValue := false }
    else
      let coerced : Option JsValue :=
        match opt.type with
        | .boolean =>
          if st.currentValue = lit "yes" then some (.bool true)
          else if st.currentValue = lit "no" then some (.bool false)
          else none
        | .string => some (.str st.currentValue)
        | .number =>
          if jsNumberAccepts st.currentValue then some (.num st.currentValue) else none
        | .enum choices =>
          if st.currentValue ∈ choices then some (.str st.currentValue) else none
      let ty : TokenType :=
        match opt.type, coerced with
        | .string, _ => .text
        | .number, some _ => .numeric
        | .number, none => .invalid
        | _, some _ => .enum
        | _, none => .invalid
      let st1 := { completeToken ty st with currentValue := [] }
      match coerced with
      | none => some { st1 with currentOption := none, inOptionValue := false }
      | some v =>
        match storeOption opt v st1 with
        | none => none
        | some st2 => some { st2 with currentOption := none, inOptionValue := false }

/-- Loop body, quoting and escaping (`Search.tsx` lines 202-212). -/
def stepEscaped (i : Nat) (c : Char) (st : ParseState) : ParseState :=
  let stA := { st with currentTokenText := st.currentTokenText ++ [c] }
  let stB :=
    match escapeSequences c with
    | some d => completeToken .escapeSequence { stA with currentValue := stA.currentValue ++ [d] }
    | none => completeToken .invalidEscapeSequence (parseError i "invalid escape sequence" stA)
  { stB with currentTokenText := [], escaped := false }

/-- Loop body, quoting without pending escape (`Search.tsx` lines
213-232). -/
def stepQuoted (c : Char) (st : ParseState) : Option ParseState :=
  if c = '"' then
    let st1 := { st with currentTokenText := st.currentTokenText ++ ['"'] }
    if st1.inOptionValue then
      match completeOptionValue st1 with
      | none => none
      | some st2 => some { st2 with inQuotes := false }
    else
      let st2 := completeToken .text st1
      some { st2 with text := st2.text ++ [st2.currentValue], currentValue := [], inQuotes := false }
  else if c = '\\' then
    let st1 := completeToken .text st
    some { st1 with currentTokenText := ['\\'], escaped := true }
  else
    some { st with
      currentTokenText := st.currentTokenText ++ [c]
      currentValue := st.currentValue ++ [c] }

/-- Loop body, option-value mode outside quotes (`Search.tsx` lines
234-262). -/
def stepOptVal (i : Nat) (c : Char) (st : ParseState) : Option ParseState :=
  if c = '"' then
    if st.currentTokenText.length = 0 then
      some { st with inQuotes := true, currentTokenText := ['"'] }
    else
      match completeOptionValue (parseError i "unexpected quotation mark" st) with
      | none => none
      | some st1 => some (completeToken .invalid { st1 with currentTokenText := ['"'] })
  else if jsWhitespace c then
    match completeOptionValue st with
    | none => none
    | some st1 => some (completeToken .space { st1 with currentTokenText := [' '] })
  else if c = '\\' then
    match completeOptionValue (parseError i "unexpected escape character" st) with
    | none => none
    | some st1 => some (completeToken .invalid { st1 with currentTokenText := ['\\'] })
  else if c = ':' then
    match completeOptionValue (parseError i "unexpected colon character" st) with
    | none => none
    | some st1 => some (completeToken .invalid { st1 with currentTokenText := [':'] })
  else
    some { st with
      currentTokenText := st.currentTokenText ++ [c]
      currentValue := st.currentValue ++ [c] }

/-- Loop body, bare text mode (`Search.tsx` lines 263-311). -/
def stepBare (config : List SearchOption) (i : Nat) (c : Char) (st : ParseState) : ParseState :=
  if jsWhitespace c then
    let st1 :=
      if st.currentTokenText.length > 0 then
        let s1 := completeToken .text st
        { s1 with text := s1.text ++ [s1.currentValue] }
      else st
    let st2 := completeToken .space { st1 with currentTokenText := [' '] }
    { st2 with currentValue := [] }
  else if c = '"' then
    if st.currentTokenText.length = 0 then
      { st with inQuotes := true, currentTokenText := ['"'] }
    else
      let st1 := completeToken .text (parseError i "unexpected quotation mark" st)
      completeToken .invalid { st1 with currentTokenText := ['"'] }
  else if c = '\\' then
    completeToken .invalid (parseError i "unexpected escape character" { st with currentTokenText := ['\\'] })
  else if c = ':' then
    let st1 := { st with currentTokenText := st.currentTokenText ++ [':'] }
    if st1.currentValue.length = 0 then
      completeToken .invalid (parseError i "unexpected colon character" st1)
    else
      let st2 :=
        match findOption config st1.currentValue with
        | some opt =>
          if !opt.multiple && (lookupStored st1.options st1.currentValue).isSome then
            parseError i "illegally repeated option" (completeToken .invalidOptionName st1)
          else
            { completeToken .optionName st1 with currentOption := some opt, inOptionValue := true }
        | none => parseError i "unknown option" (completeToken .invalidOptionName st1)
      { st2 with currentValue := [] }
  else
    { st with
      currentTokenText := st.currentTokenText ++ [c]
      currentValue := st.currentValue ++ [c] }

/-- One iteration of the scanner loop (`Search.tsx` lines 199-313). -/
def stepChar (config : List SearchOption) (i : Nat) (c : Char) (st : ParseState) : Option ParseState :=
  if st.inQuotes then
    if st.escaped then some (stepEscaped i c st) else stepQuoted c st
  else if st.inOptionValue then stepOptVal i c st
  else some (stepBare config i c st)

/-- The scanner loop from position `i` over the remaining characters. -/
def runFrom (config : List SearchOption) (i : Nat) (cs : Str) (st : ParseState) : Option ParseState :=
  match cs with
  | [] => some st
  | c :: rest =>
    match stepChar config i c st with
    | none => none
    | some st' => runFrom config (i + 1) rest st'

/-- End-of-input handling (`Search.tsx` lines 315-331). -/
def finish (len : Nat) (st : ParseState) : Option ParseState :=
  if st.inQuotes then
    let st1 := completeToken .text st
    let st2? :=
      if st1.inOptionValue then completeOptionValue st1
      else some { st1 with text := st1.text ++ [st1.currentValue] }
    match st2? with
    | none => none
    | some st2 => some (completeToken .missingQuote (parseError len "missing quotation mark" st2))
  else if st.inOptionValue then
    completeOptionValue st
  else if st.currentValue.length > 0 then
    some (completeToken .text { st with text := st.text ++ [st.currentValue] })
  else
    some st

/-- The scanner start state. -/
def initState : ParseState := {}

/-- The whole scan: loop from the start state, then end-of-input
handling. -/
def scanAll (config : List SearchOption) (s : Str) : Option ParseState :=
  match runFrom config 0 s initState with
  | none => none
  | some st => finish s.length st

/-- `parse` (`Search.tsx` lines 90-339). `none` models an uncaught
exception; the returned record always carries a non-null `result`, the
commented-out nulling on error (line 336) being dead code. -/
def parse (s : Str) (config : List SearchOption) : Option ParseResult :=
  match scanAll config s with
  | none => none
  | some st' =>
    some { tokens := st'.tokens
           error := st'.error
           result := some { text := st'.text, options := st'.options } }

/-- Concatenation of the raw text of a token list. -/
def joinToks (ts : List Token) : Str := (ts.map Token.content).flatten

/-- Modelled from the spec (testable property, section 8): the input
split on whitespace runs into its non-empty maximal words, in order.
Comparison side of the free-text refinement claim only; `parse` itself is
the authority. -/
def specWordsAux : Str → Str → List Str
  | [], acc => if acc = [] then [] else [acc]
  | c :: rest, acc =>
    if jsWhitespace c then
      if acc = [] then specWordsAux rest [] else acc :: specWordsAux rest []
    else specWordsAux rest (acc ++ [c])

/-- Modelled from the spec: split on whitespace runs. -/
def specWords (cs : Str) : List Str := specWordsAux cs []

/-! ## Basic lemmas about the scanner primitives -/

theorem completeToken_iov (ty : TokenType) (st : ParseState) (h : st.inOptionValue = true) :
    completeToken ty st =
      { st with
        tokens := st.tokens ++
          [{ type := ty, content := st.currentTokenText, suggest := .spec st.currentOption }]
        currentTokenText := [] } := by
  simp [completeToken, h]

theorem completeToken_not_iov (ty : TokenType) (st : ParseState) (h : st.inOptionValue = false)
    (hty : ty ≠ .missingOptionValue) :
    completeToken ty st =
      { st with
        tokens := st.tokens ++
          [{ type := ty, content := st.currentTokenText,
             suggest := if ty = .text ∨ ty = .space then .options else .none }]
        currentTokenText := [] } := by
  by_cases h1 : ty = .text
  · simp [completeToken, h, h1]
  · by_cases h2 : ty = .space
    · simp [completeToken, h, h1, h2]
    · simp [completeToken, h, h1, h2, hty]

theorem parseError_error (pos : Nat) (t : String) (st : ParseState) :
    (parseError pos t st).error =
      if st.error = none then some { position := pos, text := t } else st.error := by
  by_cases h : st.error = none <;> simp [parseError, h]

theorem parseError_fields (pos : Nat) (t : String) (st : ParseState) :
    parseError pos t st = { st with error := (parseError pos t st).error } := by
  by_cases h : st.error = none <;> simp [parseError, h]

theorem parseError_some (pos : Nat) (t : String) (st : ParseState) (e : ParseError)
    (h : st.error = some e) : parseError pos t st = st := by
  simp [parseError, h]

theorem lookupStored_set_self (m : List (Str × StoredValue)) (k : Str) (v : StoredValue) :
    lookupStored (setStored m k v) k = some v := by
  induction m with
  | nil => simp [setStored, lookupStored]
  | cons hd tl ih =>
    obtain ⟨k', v'⟩ := hd
    by_cases h : k' = k <;> simp [setStored, lookupStored, h, ih]

theorem lookupStored_set_ne (m : List (Str × StoredValue)) (k k' : Str) (v : StoredValue)
    (h : k' ≠ k) : lookupStored (setStored m k v) k' = lookupStored m k' := by
  induction m with
  | nil => simp [setStored, lookupStored, Ne.symm h]
  | cons hd tl ih =>
    obtain ⟨k0, v0⟩ := hd
    by_cases h0 : k0 = k
    · subst h0
      simp [setStored, lookupStored, Ne.symm h]
    · by_cases h1 : k0 = k' <;> simp [setStored, lookupStored, h0, h1, ih, h]

theorem findOption_name (config : List SearchOption) (k : Str) (o : SearchOption)
    (h : findOption config k = some o) : o.name = k := by
  induction config with
  | nil => simp [findOption] at h
  | cons hd tl ih =>
    simp only [findOption] at h
    cases hfo : findOption tl k with
    | some o' => rw [hfo] at h; exact ih (hfo.trans (by injection h with h; rw [h]))
    | none =>
      rw [hfo] at h
      by_cases hn : hd.name = k
      · simp [hn] at h; rw [← h]; exact hn
      · simp [hn] at h

/-! ## The scan invariant -/

/-- Entries of the result options object always have the shape prescribed
for their name by the schema: a sequence exactly when `multiple` holds. -/
def OptsInv (config : List SearchOption) (opts : List (Str × StoredValue)) : Prop :=
  ∀ k sv, lookupStored opts k = some sv →
    ∃ o, findOption config k = some o ∧ sv.isMulti = o.multiple

/-- Observable facts about every emitted token: Space tokens carry the
`options` hint and a single blank as content; name-shaped and
missing-quote tokens carry no hint; a missing-option-value token carries
the matched schema entry. -/
def TokProp (config : List SearchOption) (t : Token) : Prop :=
  (t.type = .space → t.suggest = .options ∧ t.content = [' ']) ∧
  ((t.type = .optionName ∨ t.type = .invalidOptionName ∨ t.type = .missingQuote) →
    t.suggest = .none) ∧
  (t.type = .missingOptionValue →
    ∃ o, t.suggest = .spec (some o) ∧ findOption config o.name = some o)

/-- The induction invariant of the scanner loop. -/
def StInv (config : List SearchOption) (st : ParseState) : Prop :=
  (st.inOptionValue = true →
    ∃ o, st.currentOption = some o ∧ findOption config o.name = some o) ∧
  OptsInv config st.options ∧
  (∀ t ∈ st.tokens, TokProp config t)

theorem tokProp_other (config : List SearchOption) (ty : TokenType) (cs : Str) (sg : Suggest)
    (h1 : ty ≠ .space) (h2 : ty ≠ .optionName) (h3 : ty ≠ .invalidOptionName)
    (h4 : ty ≠ .missingQuote) (h5 : ty ≠ .missingOptionValue) :
    TokProp config { type := ty, content := cs, suggest := sg } := by
  refine ⟨fun h => absurd h h1, fun h => ?_, fun h => absurd h h5⟩
  rcases h with h | h | h
  · exact absurd h h2
  · exact absurd h h3
  · exact absurd h h4

theorem tokProp_append (config : List SearchOption) (ts : List Token) (tok : Token)
    (h1 : ∀ t ∈ ts, TokProp config t) (h2 : TokProp config tok) :
    ∀ t ∈ ts ++ [tok], TokProp config t := by
  intro t ht
  rcases List.mem_append.1 ht with h | h
  · exact h1 t h
  · rw [List.mem_singleton.1 h]; exact h2

theorem storeOption_fields (opt : SearchOption) (v : JsValue) (st st2 : ParseState)
    (h : storeOption opt v st = some st2) : st2 = { st with options := st2.options } := by
  by_cases hm : opt.multiple = true
  · cases hlk : lookupStored st.options opt.name with
    | none => simp [storeOption, hm, hlk] at h; rw [← h]
    | some sv =>
      cases sv with
      | single w => simp [storeOption, hm, hlk] at h
      | multi vs => simp [storeOption, hm, hlk] at h; rw [← h]
  · simp [storeOption, hm] at h; rw [← h]

theorem optsInv_set (config : List SearchOption) (m : List (Str × StoredValue))
    (k : Str) (sv : StoredValue) (o : SearchOption)
    (hm : OptsInv config m) (hf : findOption config k = some o) (hsh : sv.isMulti = o.multiple) :
    OptsInv config (setStored m k sv) := by
  intro k' sv' h
  by_cases hk : k' = k
  · subst hk
    rw [lookupStored_set_self] at h
    exact ⟨o, hf, by injection h with h; rw [← h]; exact hsh⟩
  · rw [lookupStored_set_ne _ _ _ _ hk] at h
    exact hm k' sv' h

theorem storeOption_spec (config : List SearchOption) (opt : SearchOption) (v : JsValue)
    (st : ParseState) (hfind : findOption config opt.name = some opt)
    (hopts : OptsInv config st.options) :
    ∃ st2, storeOption opt v st = some st2 ∧
      st2 = { st with options := st2.options } ∧ OptsInv config st2.options := by
  by_cases hm : opt.multiple = true
  · cases hlk : lookupStored st.options opt.name with
    | none =>
      refine ⟨{ st with options := setStored st.options opt.name (.multi [v]) },
        by simp [storeOption, hm, hlk], rfl, ?_⟩
      exact optsInv_set config st.options opt.name (.multi [v]) opt hopts hfind
        (by simp [StoredValue.isMulti, hm])
    | some sv =>
      cases sv with
      | single w =>
        exfalso
        obtain ⟨o', hf', hsh'⟩ := hopts opt.name (.single w) hlk
        rw [hfind] at hf'
        injection hf' with hf'
        rw [← hf'] at hsh'
        simp [StoredValue.isMulti, hm] at hsh'
      | multi vs =>
        refine ⟨{ st with options := setStored st.options opt.name (.multi (vs ++ [v])) },
          by simp [storeOption, hm, hlk], rfl, ?_⟩
        exact optsInv_set config st.options opt.name (.multi (vs ++ [v])) opt hopts hfind
          (by simp [StoredValue.isMulti, hm])
  · refine ⟨{ st with options := setStored st.options opt.name (.single v) },
      by simp [storeOption, hm], rfl, ?_⟩
    exact optsInv_set config st.options opt.name (.single v) opt hopts hfind
      (by simp [StoredValue.isMulti, Bool.of_not_eq_true hm])

/-! ## Spec lemmas for completeOptionValue -/

theorem cov_fields (st st' : ParseState) (h : completeOptionValue st = some st')
    (hiov : st.inOptionValue = true) :
    ∃ ty opts2,
      st' = { st with
        tokens := st.tokens ++
          [{ type := ty, content := st.currentTokenText, suggest := .spec st.currentOption }]
        currentTokenText := [], currentValue := [], inOptionValue := false
        currentOption := none, options := opts2 } ∧
      (ty = .missingOptionValue ∨ ty = .text ∨ ty = .numeric ∨ ty = .enum ∨ ty = .invalid) := by
  obtain ⟨tks, txt, opts0, err, ctt, cv, iq, esc, iov, co⟩ := st
  simp only at hiov
  subst hiov
  cases co with
  | none => simp [completeOptionValue] at h
  | some opt =>
    simp only [completeOptionValue] at h
    by_cases hv : cv.length = 0
    · rw [if_pos hv] at h
      have hv0 : cv = [] := List.length_eq_zero.mp hv
      obtain rfl := Option.some.inj h
      exact ⟨.missingOptionValue, opts0, by simp [completeToken, hv0], Or.inl rfl⟩
    · rw [if_neg hv] at h
      cases hty : opt.type with
      | boolean =>
        rw [hty] at h
        dsimp only at h
        by_cases hyes : cv = lit "yes"
        · rw [if_pos hyes] at h
          dsimp only at h
          split at h
          · exact Option.noConfusion h
          · rename_i st2 heq
            obtain rfl := Option.some.inj h
            have h2 := storeOption_fields _ _ _ _ heq
            exact ⟨.enum, st2.options, by rw [h2]; simp [completeToken], by simp⟩
        · rw [if_neg hyes] at h
          by_cases hno : cv = lit "no"
          · rw [if_pos hno] at h
            dsimp only at h
            split at h
            · exact Option.noConfusion h
            · rename_i st2 heq
              obtain rfl := Option.some.inj h
              have h2 := storeOption_fields _ _ _ _ heq
              exact ⟨.enum, st2.options, by rw [h2]; simp [completeToken], by simp⟩
          · rw [if_neg hno] at h
            dsimp only at h
            obtain rfl := Option.some.inj h
            exact ⟨.invalid, opts0, by simp [completeToken], by simp⟩
      | string =>
        rw [hty] at h
        dsimp only at h
        split at h
        · exact Option.noConfusion h
        · rename_i st2 heq
          obtain rfl := Option.some.inj h
          have h2 := storeOption_fields _ _ _ _ heq
          exact ⟨.text, st2.options, by rw [h2]; simp [completeToken], by simp⟩
      | number =>
        rw [hty] at h
        dsimp only at h
        by_cases hn : jsNumberAccepts cv = true
        · rw [if_pos hn] at h
          dsimp only at h
          split at h
          · exact Option.noConfusion h
          · rename_i st2 heq
            obtain rfl := Option.some.inj h
            have h2 := storeOption_fields _ _ _ _ heq
            exact ⟨.numeric, st2.options, by rw [h2]; simp [completeToken], by simp⟩
        · rw [if_neg hn] at h
          dsimp only at h
          obtain rfl := Option.some.inj h
          exact ⟨.invalid, opts0, by simp [completeToken], by simp⟩
      | enum choices =>
        rw [hty] at h
        dsimp only at h
        by_cases hm : cv ∈ choices
        · rw [if_pos hm] at h
          dsimp only at h
          split at h
          · exact Option.noConfusion h
          · rename_i st2 heq
            obtain rfl := Option.some.inj h
            have h2 := storeOption_fields _ _ _ _ heq
            exact ⟨.enum, st2.options, by rw [h2]; simp [completeToken], by simp⟩
        · rw [if_neg hm] at h
          dsimp only at h
          obtain rfl := Option.some.inj h
          exact ⟨.invalid, opts0, by simp [completeToken], by simp⟩

theorem cov_run (config : List SearchOption) (st : ParseState) (o : SearchOption)
    (hco : st.currentOption = some o) (hfind : findOption config o.name = some o)
    (hopts : OptsInv config st.options) :
    ∃ st', completeOptionValue st = some st' ∧ OptsInv config st'.options := by
  simp only [completeOptionValue, hco]
  by_cases hv : st.currentValue.length = 0
  · rw [if_pos hv]
    exact ⟨_, rfl, by simpa [completeToken] using hopts⟩
  · rw [if_neg hv]
    cases hty : o.type with
    | boolean =>
      dsimp only
      by_cases hyes : st.currentValue = lit "yes"
      · rw [if_pos hyes]
        dsimp only
        obtain ⟨st2, hst2, _, hinv2⟩ := storeOption_spec config o (.bool true)
          { completeToken .enum st with currentValue := [] } hfind
          (by simpa [completeToken] using hopts)
        simp only [hst2]
        exact ⟨_, rfl, by simpa using hinv2⟩
      · rw [if_neg hyes]
        by_cases hno : st.currentValue = lit "no"
        · rw [if_pos hno]
          dsimp only
          obtain ⟨st2, hst2, _, hinv2⟩ := storeOption_spec config o (.bool false)
            { completeToken .enum st with currentValue := [] } hfind
            (by simpa [completeToken] using hopts)
          simp only [hst2]
          exact ⟨_, rfl, by simpa using hinv2⟩
        · rw [if_neg hno]
          dsimp only
          exact ⟨_, rfl, by simpa [completeToken] using hopts⟩
    | string =>
      dsimp only
      obtain ⟨st2, hst2, _, hinv2⟩ := storeOption_spec config o (.str st.currentValue)
        { completeToken .text st with currentValue := [] } hfind
        (by simpa [completeToken] using hopts)
      simp only [hst2]
      exact ⟨_, rfl, by simpa using hinv2⟩
    | number =>
      dsimp only
      by_cases hn : jsNumberAccepts st.currentValue = true
      · rw [if_pos hn]
        dsimp only
        obtain ⟨st2, hst2, _, hinv2⟩ := storeOption_spec config o (.num st.currentValue)
          { completeToken .numeric st with currentValue := [] } hfind
          (by simpa [completeToken] using hopts)
        simp only [hst2]
        exact ⟨_, rfl, by simpa using hinv2⟩
      · rw [if_neg hn]
        dsimp only
        exact ⟨_, rfl, by simpa [completeToken] using hopts⟩
    | enum choices =>
      dsimp only
      by_cases hm : st.currentValue ∈ choices
      · rw [if_pos hm]
        dsimp only
        obtain ⟨st2, hst2, _, hinv2⟩ := storeOption_spec config o (.str st.currentValue)
          { completeToken .enum st with currentValue := [] } hfind
          (by simpa [completeToken] using hopts)
        simp only [hst2]
        exact ⟨_, rfl, by simpa using hinv2⟩
      · rw [if_neg hm]
        dsimp only
        exact ⟨_, rfl, by simpa [completeToken] using hopts⟩

/-! ## Shape lemmas: each scanner branch as an explicit record update -/

theorem stepEscaped_hit (i : Nat) (c d : Char) (st : ParseState)
    (hd : escapeSequences c = some d) :
    stepEscaped i c st = { st with
      tokens := st.tokens ++
        [{ type := .escapeSequence, content := st.currentTokenText ++ [c],
           suggest := if st.inOptionValue then .spec st.currentOption else .none }]
      currentValue := st.currentValue ++ [d]
      currentTokenText := [], escaped := false } := by
  obtain ⟨tks, txt, opts0, err, ctt, cv, iq, esc, iov, co⟩ := st
  cases iov <;> simp [stepEscaped, hd, completeToken]

theorem stepEscaped_miss (i : Nat) (c : Char) (st : ParseState)
    (hd : escapeSequences c = none) :
    stepEscaped i c st = { st with
      tokens := st.tokens ++
        [{ type := .invalidEscapeSequence, content := st.currentTokenText ++ [c],
           suggest := if st.inOptionValue then .spec st.currentOption else .none }]
      error := if st.error = none then some { position := i, text := "invalid escape sequence" }
               else st.error
      currentTokenText := [], escaped := false } := by
  obtain ⟨tks, txt, opts0, err, ctt, cv, iq, esc, iov, co⟩ := st
  cases iov <;> cases err <;> simp [stepEscaped, hd, completeToken, parseError]

theorem stepQuoted_close_text (st : ParseState) (hio : st.inOptionValue = false) :
    stepQuoted '"' st = some { st with
      tokens := st.tokens ++
        [{ type := .text, content := st.currentTokenText ++ ['"'], suggest := .options }]
      text := st.text ++ [st.currentValue]
      currentValue := [], currentTokenText := [], inQuotes := false } := by
  obtain ⟨tks, txt, opts0, err, ctt, cv, iq, esc, iov, co⟩ := st
  simp only at hio
  subst hio
  simp [stepQuoted, completeToken]

theorem stepQuoted_backslash (st : ParseState) :
    stepQuoted '\\' st = some { st with
      tokens := st.tokens ++
        [{ type := .text, content := st.currentTokenText,
           suggest := if st.inOptionValue then .spec st.currentOption else .options }]
      currentTokenText := ['\\'], escaped := true } := by
  obtain ⟨tks, txt, opts0, err, ctt, cv, iq, esc, iov, co⟩ := st
  cases iov <;> simp [stepQuoted, completeToken]

theorem stepQuoted_other (c : Char) (st : ParseState) (h1 : c ≠ '"') (h2 : c ≠ '\\') :
    stepQuoted c st = some { st with
      currentTokenText := st.currentTokenText ++ [c]
      currentValue := st.currentValue ++ [c] } := by
  simp [stepQuoted, h1, h2]

theorem stepOptVal_quote_open (i : Nat) (st : ParseState)
    (hlen : st.currentTokenText.length = 0) :
    stepOptVal i '"' st = some { st with inQuotes := true, currentTokenText := ['"'] } := by
  simp [stepOptVal, hlen]

theorem stepOptVal_other (i : Nat) (c : Char) (st : ParseState)
    (h1 : c ≠ '"') (hws : jsWhitespace c = false) (h2 : c ≠ '\\') (h3 : c ≠ ':') :
    stepOptVal i c st = some { st with
      currentTokenText := st.currentTokenText ++ [c]
      currentValue := st.currentValue ++ [c] } := by
  simp [stepOptVal, h1, hws, h2, h3]

theorem stepBare_ws (config : List SearchOption) (i : Nat) (c : Char) (st : ParseState)
    (hws : jsWhitespace c = true) (hio : st.inOptionValue = false) :
    stepBare config i c st = { st with
      tokens := st.tokens ++
        (if st.currentTokenText.length > 0 then
          [{ type := .text, content := st.currentTokenText, suggest := .options },
           { type := .space, content := [' '], suggest := .options }]
        else [{ type := .space, content := [' '], suggest := .options }])
      text := st.text ++ (if st.currentTokenText.length > 0 then [st.currentValue] else [])
      currentTokenText := [], currentValue := [] } := by
  obtain ⟨tks, txt, opts0, err, ctt, cv, iq, esc, iov, co⟩ := st
  simp only at hio
  subst hio
  by_cases hlen : ctt.length > 0 <;> simp [stepBare, hws, hlen, completeToken]

theorem stepBare_quote_open (config : List SearchOption) (i : Nat) (st : ParseState)
    (hws : jsWhitespace '"' = false) (hlen : st.currentTokenText.length = 0) :
    stepBare config i '"' st = { st with inQuotes := true, currentTokenText := ['"'] } := by
  simp [stepBare, hws, hlen]

theorem stepBare_quote_mid (config : List SearchOption) (i : Nat) (st : ParseState)
    (hlen : st.currentTokenText.length ≠ 0) (hio : st.inOptionValue = false) :
    stepBare config i '"' st = { st with
      tokens := st.tokens ++
        [{ type := .text, content := st.currentTokenText, suggest := .options },
         { type := .invalid, content := ['"'], suggest := .none }]
      error := if st.error = none then
          some { position := i, text := "unexpected quotation mark" } else st.error
      currentTokenText := [] } := by
  obtain ⟨tks, txt, opts0, err, ctt, cv, iq, esc, iov, co⟩ := st
  simp only at hio hlen
  subst hio
  cases err <;> simp [stepBare, jsWhitespace, hlen, completeToken, parseError]

theorem stepBare_backslash (config : List SearchOption) (i : Nat) (st : ParseState)
    (hio : st.inOptionValue = false) :
    stepBare config i '\\' st = { st with
      tokens := st.tokens ++ [{ type := .invalid, content := ['\\'], suggest := .none }]
      error := if st.error = none then
          some { position := i, text := "unexpected escape character" } else st.error
      currentTokenText := [] } := by
  obtain ⟨tks, txt, opts0, err, ctt, cv, iq, esc, iov, co⟩ := st
  simp only at hio
  subst hio
  cases err <;> simp [stepBare, jsWhitespace, completeToken, parseError]

theorem stepBare_colon_empty (config : List SearchOption) (i : Nat) (st : ParseState)
    (hv : st.currentValue.length = 0) (hio : st.inOptionValue = false) :
    stepBare config i ':' st = { st with
      tokens := st.tokens ++
        [{ type := .invalid, content := st.currentTokenText ++ [':'], suggest := .none }]
      error := if st.error = none then
          some { position := i, text := "unexpected colon character" } else st.error
      currentTokenText := [], currentValue := [] } := by
  obtain ⟨tks, txt, opts0, err, ctt, cv, iq, esc, iov, co⟩ := st
  simp only at hv hio
  subst hio
  have hv0 : cv = [] := List.length_eq_zero.mp hv
  subst hv0
  cases err <;> simp [stepBare, jsWhitespace, completeToken, parseError]

theorem stepBare_colon_enter (config : List SearchOption) (i : Nat) (st : ParseState)
    (opt : SearchOption) (hv : st.currentValue.length ≠ 0) (hio : st.inOptionValue = false)
    (hf : findOption config st.currentValue = some opt)
    (hok : opt.multiple = true ∨ lookupStored st.options st.currentValue = none) :
    stepBare config i ':' st = { st with
      tokens := st.tokens ++
        [{ type := .optionName, content := st.currentTokenText ++ [':'], suggest := .none }]
      currentTokenText := [], currentValue := []
      currentOption := some opt, inOptionValue := true } := by
  obtain ⟨tks, txt, opts0, err, ctt, cv, iq, esc, iov, co⟩ := st
  simp only at hv hio hf hok
  subst hio
  have hcond : (!opt.multiple && (lookupStored opts0 cv).isSome) = false := by
    rcases hok with h | h
    · simp [h]
    · simp [h]
  simp [stepBare, jsWhitespace, hv, hf, hcond, completeToken]

theorem stepBare_colon_repeat (config : List SearchOption) (i : Nat) (st : ParseState)
    (opt : SearchOption) (hv : st.currentValue.length ≠ 0) (hio : st.inOptionValue = false)
    (hf : findOption config st.currentValue = some opt)
    (hmul : opt.multiple = false) (hlk : (lookupStored st.options st.currentValue).isSome) :
    stepBare config i ':' st = { st with
      tokens := st.tokens ++
        [{ type := .invalidOptionName, content := st.currentTokenText ++ [':'], suggest := .none }]
      error := if st.error = none then
          some { position := i, text := "illegally repeated option" } else st.error
      currentTokenText := [], currentValue := [] } := by
  obtain ⟨tks, txt, opts0, err, ctt, cv, iq, esc, iov, co⟩ := st
  simp only at hv hio hf hmul hlk
  subst hio
  cases err <;> simp [stepBare, jsWhitespace, hv, hf, hmul, hlk, completeToken, parseError]

theorem stepBare_colon_unknown (config : List SearchOption) (i : Nat) (st : ParseState)
    (hv : st.currentValue.length ≠ 0) (hio : st.inOptionValue = false)
    (hf : findOption config st.currentValue = none) :
    stepBare config i ':' st = { st with
      tokens := st.tokens ++
        [{ type := .invalidOptionName, content := st.currentTokenText ++ [':'], suggest := .none }]
      error := if st.error = none then
          some { position := i, text := "unknown option" } else st.error
      currentTokenText := [], currentValue := [] } := by
  obtain ⟨tks, txt, opts0, err, ctt, cv, iq, esc, iov, co⟩ := st
  simp only at hv hio hf
  subst hio
  cases err <;> simp [stepBare, jsWhitespace, hv, hf, completeToken, parseError]

theorem stepBare_other (config : List SearchOption) (i : Nat) (c : Char) (st : ParseState)
    (hws : jsWhitespace c = false) (h1 : c ≠ '"') (h2 : c ≠ '\\') (h3 : c ≠ ':') :
    stepBare config i c st = { st with
      currentTokenText := st.currentTokenText ++ [c]
      currentValue := st.currentValue ++ [c] } := by
  simp [stepBare, hws, h1, h2, h3]

/-! ## Field lemmas and invariant preservation -/

@[simp] theorem completeToken_inQuotes (ty : TokenType) (st : ParseState) :
    (completeToken ty st).inQuotes = st.inQuotes := rfl

@[simp] theorem completeToken_escaped (ty : TokenType) (st : ParseState) :
    (completeToken ty st).escaped = st.escaped := rfl

@[simp] theorem completeToken_inOptionValue (ty : TokenType) (st : ParseState) :
    (completeToken ty st).inOptionValue = st.inOptionValue := rfl

@[simp] theorem completeToken_currentOption (ty : TokenType) (st : ParseState) :
    (completeToken ty st).currentOption = st.currentOption := rfl

@[simp] theorem completeToken_currentValue (ty : TokenType) (st : ParseState) :
    (completeToken ty st).currentValue = st.currentValue := rfl

@[simp] theorem completeToken_text (ty : TokenType) (st : ParseState) :
    (completeToken ty st).text = st.text := rfl

@[simp] theorem completeToken_options (ty : TokenType) (st : ParseState) :
    (completeToken ty st).options = st.options := rfl

@[simp] theorem completeToken_error (ty : TokenType) (st : ParseState) :
    (completeToken ty st).error = st.error := rfl

@[simp] theorem completeToken_currentTokenText (ty : TokenType) (st : ParseState) :
    (completeToken ty st).currentTokenText = [] := rfl

@[simp] theorem parseError_inQuotes (p : Nat) (t : String) (st : ParseState) :
    (parseError p t st).inQuotes = st.inQuotes := by
  by_cases herr : st.error = none <;> simp [parseError, herr]

@[simp] theorem parseError_escaped (p : Nat) (t : String) (st : ParseState) :
    (parseError p t st).escaped = st.escaped := by
  by_cases herr : st.error = none <;> simp [parseError, herr]

@[simp] theorem parseError_inOptionValue (p : Nat) (t : String) (st : ParseState) :
    (parseError p t st).inOptionValue = st.inOptionValue := by
  by_cases herr : st.error = none <;> simp [parseError, herr]

@[simp] theorem parseError_currentOption (p : Nat) (t : String) (st : ParseState) :
    (parseError p t st).currentOption = st.currentOption := by
  by_cases herr : st.error = none <;> simp [parseError, herr]

@[simp] theorem parseError_currentValue (p : Nat) (t : String) (st : ParseState) :
    (parseError p t st).currentValue = st.currentValue := by
  by_cases herr : st.error = none <;> simp [parseError, herr]

@[simp] theorem parseError_currentTokenText (p : Nat) (t : String) (st : ParseState) :
    (parseError p t st).currentTokenText = st.currentTokenText := by
  by_cases herr : st.error = none <;> simp [parseError, herr]

@[simp] theorem parseError_text (p : Nat) (t : String) (st : ParseState) :
    (parseError p t st).text = st.text := by
  by_cases herr : st.error = none <;> simp [parseError, herr]

@[simp] theorem parseError_options (p : Nat) (t : String) (st : ParseState) :
    (parseError p t st).options = st.options := by
  by_cases herr : st.error = none <;> simp [parseError, herr]

@[simp] theorem parseError_tokens (p : Nat) (t : String) (st : ParseState) :
    (parseError p t st).tokens = st.tokens := by
  by_cases herr : st.error = none <;> simp [parseError, herr]

theorem tokProp_cov (config : List SearchOption) (o : SearchOption) (ty : TokenType)
    (content : Str) (hfind : findOption config o.name = some o)
    (htys : ty = .missingOptionValue ∨ ty = .text ∨ ty = .numeric ∨ ty = .enum ∨ ty = .invalid) :
    TokProp config { type := ty, content := content, suggest := .spec (some o) } := by
  rcases htys with rfl | rfl | rfl | rfl | rfl
  · exact ⟨fun h => absurd h (by simp),
      fun h => by rcases h with h | h | h <;> exact absurd h (by simp),
      fun _ => ⟨o, rfl, hfind⟩⟩
  all_goals exact tokProp_other _ _ _ _ (by simp) (by simp) (by simp) (by simp) (by simp)

theorem tokProp_space (config : List SearchOption) :
    TokProp config { type := .space, content := [' '], suggest := .options } :=
  ⟨fun _ => ⟨rfl, rfl⟩,
   fun h => by rcases h with h | h | h <;> exact absurd h (by simp),
   fun h => absurd h (by simp)⟩

theorem tokProp_named (config : List SearchOption) (ty : TokenType) (content : Str)
    (hty : ty = .optionName ∨ ty = .invalidOptionName ∨ ty = .missingQuote) :
    TokProp config { type := ty, content := content, suggest := .none } := by
  rcases hty with rfl | rfl | rfl <;>
    exact ⟨fun h => absurd h (by simp), fun _ => rfl, fun h => absurd h (by simp)⟩

theorem completeToken_stInv (config : List SearchOption) (ty : TokenType) (st : ParseState)
    (hinv : StInv config st)
    (h1 : ty ≠ .space) (h2 : ty ≠ .optionName) (h3 : ty ≠ .invalidOptionName)
    (h4 : ty ≠ .missingQuote) (h5 : ty ≠ .missingOptionValue) :
    StInv config (completeToken ty st) := by
  obtain ⟨hA, hB, hC⟩ := hinv
  exact ⟨fun h => hA h, hB,
    tokProp_append _ _ _ hC (tokProp_other _ _ _ _ h1 h2 h3 h4 h5)⟩

theorem completeToken_space_stInv (config : List SearchOption) (st : ParseState)
    (hinv : StInv config st) (hio : st.inOptionValue = false)
    (hct : st.currentTokenText = [' ']) :
    StInv config (completeToken .space st) := by
  obtain ⟨hA, hB, hC⟩ := hinv
  refine ⟨fun h => hA h, hB, ?_⟩
  have hts : (completeToken .space st).tokens =
      st.tokens ++ [{ type := .space, content := [' '], suggest := .options }] := by
    rw [completeToken_not_iov _ _ hio (by decide)]
    simp [hct]
  rw [hts]
  exact tokProp_append _ _ _ hC (tokProp_space config)

theorem parseError_stInv (config : List SearchOption) (p : Nat) (t : String) (st : ParseState)
    (hinv : StInv config st) : StInv config (parseError p t st) := by
  by_cases herr : st.error = none
  · obtain ⟨hA, hB, hC⟩ := hinv
    simp only [parseError, if_pos herr]
    exact ⟨fun h => hA h, hB, hC⟩
  · simp only [parseError, if_neg herr]
    exact hinv

theorem cov_stInv (config : List SearchOption) (st : ParseState) (o : SearchOption)
    (hco : st.currentOption = some o) (hfind : findOption config o.name = some o)
    (hinv : StInv config st) (hio : st.inOptionValue = true) :
    ∃ st2, completeOptionValue st = some st2 ∧ StInv config st2 ∧
      st2.inOptionValue = false ∧ st2.currentTokenText = [] := by
  obtain ⟨hA, hB, hC⟩ := hinv
  obtain ⟨st2, hcov, hinv2⟩ := cov_run config st o hco hfind hB
  obtain ⟨ty, opts2, hshape, htys⟩ := cov_fields _ _ hcov hio
  refine ⟨st2, hcov, ⟨?_, hinv2, ?_⟩, by rw [hshape], by rw [hshape]⟩
  · intro h
    rw [hshape] at h
    simp at h
  · rw [hshape]
    refine tokProp_append _ _ _ hC ?_
    rw [hco]
    exact tokProp_cov config o ty st.currentTokenText hfind htys

theorem tokProp_append2 (config : List SearchOption) (ts : List Token) (t1 t2 : Token)
    (h : ∀ t ∈ ts, TokProp config t) (h1 : TokProp config t1) (h2 : TokProp config t2) :
    ∀ t ∈ ts ++ [t1, t2], TokProp config t := by
  intro t ht
  rcases List.mem_append.1 ht with h' | h'
  · exact h t h'
  · rcases List.mem_cons.1 h' with rfl | h''
    · exact h1
    · rw [List.mem_singleton.1 h'']
      exact h2

theorem stepEscaped_inv (config : List SearchOption) (i : Nat) (c : Char) (st : ParseState)
    (hinv : StInv config st) : StInv config (stepEscaped i c st) := by
  obtain ⟨hA, hB, hC⟩ := hinv
  cases hd : escapeSequences c with
  | some d =>
    rw [stepEscaped_hit i c d st hd]
    exact ⟨fun h => hA h, hB,
      tokProp_append _ _ _ hC (tokProp_other _ _ _ _ (by decide) (by decide) (by decide)
        (by decide) (by decide))⟩
  | none =>
    rw [stepEscaped_miss i c st hd]
    exact ⟨fun h => hA h, hB,
      tokProp_append _ _ _ hC (tokProp_other _ _ _ _ (by decide) (by decide) (by decide)
        (by decide) (by decide))⟩

theorem stepQuoted_inv (config : List SearchOption) (c : Char) (st : ParseState)
    (hinv : StInv config st) :
    ∃ st', stepQuoted c st = some st' ∧ StInv config st' := by
  by_cases hc1 : c = '"'
  · subst hc1
    cases hio : st.inOptionValue with
    | false =>
      refine ⟨_, stepQuoted_close_text st hio, ?_, hinv.2.1, ?_⟩
      · intro h
        simp [hio] at h
      · exact tokProp_append _ _ _ hinv.2.2 (tokProp_other _ _ _ _ (by decide) (by decide)
          (by decide) (by decide) (by decide))
    | true =>
      obtain ⟨o, hco, hfind⟩ := hinv.1 hio
      obtain ⟨st2, hcov, hinv2, hio2, hct2⟩ := cov_stInv config
        { st with currentTokenText := st.currentTokenText ++ ['"'], inOptionValue := true } o hco
        hfind ⟨fun _ => hinv.1 hio, hinv.2.1, hinv.2.2⟩ rfl
      refine ⟨{ st2 with inQuotes := false }, ?_, ?_⟩
      · simp [stepQuoted, hio, hcov]
      · exact ⟨fun h => hinv2.1 h, hinv2.2.1, hinv2.2.2⟩
  · by_cases hc2 : c = '\\'
    · subst hc2
      refine ⟨_, stepQuoted_backslash st, ?_, hinv.2.1, ?_⟩
      · intro h
        exact hinv.1 h
      · exact tokProp_append _ _ _ hinv.2.2 (tokProp_other _ _ _ _ (by decide) (by decide)
          (by decide) (by decide) (by decide))
    · refine ⟨_, stepQuoted_other c st hc1 hc2, ?_, hinv.2.1, hinv.2.2⟩
      intro h
      exact hinv.1 h

theorem stepOptVal_inv (config : List SearchOption) (i : Nat) (c : Char) (st : ParseState)
    (hinv : StInv config st) (hio : st.inOptionValue = true) :
    ∃ st', stepOptVal i c st = some st' ∧ StInv config st' := by
  obtain ⟨o, hco, hfind⟩ := hinv.1 hio
  by_cases hc1 : c = '"'
  · subst hc1
    by_cases hlen : st.currentTokenText.length = 0
    · refine ⟨_, stepOptVal_quote_open i st hlen, ?_, hinv.2.1, hinv.2.2⟩
      intro h
      exact hinv.1 h
    · obtain ⟨st2, hcov, hinv2, hio2, hct2⟩ := cov_stInv config
        (parseError i "unexpected quotation mark" st) o (by simpa using hco)
        hfind (parseError_stInv config i "unexpected quotation mark" st hinv) (by simpa using hio)
      refine ⟨completeToken .invalid { st2 with currentTokenText := ['"'] }, ?_, ?_⟩
      · simp [stepOptVal, hlen, hcov]
      · exact completeToken_stInv config .invalid _ ⟨fun h => hinv2.1 h, hinv2.2.1, hinv2.2.2⟩
          (by decide) (by decide) (by decide) (by decide) (by decide)
  · by_cases hws : jsWhitespace c = true
    · obtain ⟨st2, hcov, hinv2, hio2, hct2⟩ := cov_stInv config st o hco hfind hinv hio
      refine ⟨completeToken .space { st2 with currentTokenText := [' '] }, ?_, ?_⟩
      · simp [stepOptVal, hc1, hws, hcov]
      · exact completeToken_space_stInv config _ ⟨fun h => hinv2.1 h, hinv2.2.1, hinv2.2.2⟩
          (by simpa using hio2) rfl
    · by_cases hc2 : c = '\\'
      · subst hc2
        obtain ⟨st2, hcov, hinv2, hio2, hct2⟩ := cov_stInv config
          (parseError i "unexpected escape character" st) o (by simpa using hco)
          hfind (parseError_stInv config i "unexpected escape character" st hinv) (by simpa using hio)
        refine ⟨completeToken .invalid { st2 with currentTokenText := ['\\'] }, ?_, ?_⟩
        · simp [stepOptVal, hc1, hws, hcov]
        · exact completeToken_stInv config .invalid _ ⟨fun h => hinv2.1 h, hinv2.2.1, hinv2.2.2⟩
            (by decide) (by decide) (by decide) (by decide) (by decide)
      · by_cases hc3 : c = ':'
        · subst hc3
          obtain ⟨st2, hcov, hinv2, hio2, hct2⟩ := cov_stInv config
            (parseError i "unexpected colon character" st) o (by simpa using hco)
            hfind (parseError_stInv config i "unexpected colon character" st hinv) (by simpa using hio)
          refine ⟨completeToken .invalid { st2 with currentTokenText := [':'] }, ?_, ?_⟩
          · simp [stepOptVal, hc1, hws, hcov]
          · exact completeToken_stInv config .invalid _ ⟨fun h => hinv2.1 h, hinv2.2.1, hinv2.2.2⟩
              (by decide) (by decide) (by decide) (by decide) (by decide)
        · refine ⟨_, stepOptVal_other i c st hc1 (by simpa using hws) hc2 hc3, ?_, hinv.2.1, hinv.2.2⟩
          intro h
          exact hinv.1 h

theorem stepBare_inv (config : List SearchOption) (i : Nat) (c : Char) (st : ParseState)
    (hinv : StInv config st) (hio : st.inOptionValue = false) :
    StInv config (stepBare config i c st) := by
  obtain ⟨hA, hB, hC⟩ := hinv
  by_cases hws : jsWhitespace c = true
  · rw [stepBare_ws config i c st hws hio]
    refine ⟨?_, hB, ?_⟩
    · intro h
      simp [hio] at h
    · by_cases hlen : st.currentTokenText.length > 0
      · simp only [if_pos hlen]
        exact tokProp_append2 _ _ _ _ hC (tokProp_other _ _ _ _ (by decide) (by decide)
          (by decide) (by decide) (by decide)) (tokProp_space config)
      · simp only [if_neg hlen]
        exact tokProp_append _ _ _ hC (tokProp_space config)
  · by_cases hc1 : c = '"'
    · subst hc1
      by_cases hlen : st.currentTokenText.length = 0
      · rw [stepBare_quote_open config i st (by decide) hlen]
        exact ⟨fun h => by simp [hio] at h, hB, hC⟩
      · rw [stepBare_quote_mid config i st hlen hio]
        refine ⟨fun h => by simp [hio] at h, hB, ?_⟩
        exact tokProp_append2 _ _ _ _ hC (tokProp_other _ _ _ _ (by decide) (by decide)
          (by decide) (by decide) (by decide)) (tokProp_other _ _ _ _ (by decide) (by decide)
          (by decide) (by decide) (by decide))
    · by_cases hc2 : c = '\\'
      · subst hc2
        rw [stepBare_backslash config i st hio]
        refine ⟨fun h => by simp [hio] at h, hB, ?_⟩
        exact tokProp_append _ _ _ hC (tokProp_other _ _ _ _ (by decide) (by decide)
          (by decide) (by decide) (by decide))
      · by_cases hc3 : c = ':'
        · subst hc3
          by_cases hcv : st.currentValue.length = 0
          · rw [stepBare_colon_empty config i st hcv hio]
            refine ⟨fun h => by simp [hio] at h, hB, ?_⟩
            exact tokProp_append _ _ _ hC (tokProp_other _ _ _ _ (by decide) (by decide)
              (by decide) (by decide) (by decide))
          · cases hf : findOption config st.currentValue with
            | none =>
              rw [stepBare_colon_unknown config i st hcv hio hf]
              refine ⟨fun h => by simp [hio] at h, hB, ?_⟩
              exact tokProp_append _ _ _ hC (tokProp_named _ _ _ (Or.inr (Or.inl rfl)))
            | some opt =>
              by_cases hmul : opt.multiple = true
              · rw [stepBare_colon_enter config i st opt hcv hio hf (Or.inl hmul)]
                refine ⟨?_, hB, ?_⟩
                · intro h
                  refine ⟨opt, rfl, ?_⟩
                  rw [findOption_name config st.currentValue opt hf]
                  exact hf
                · exact tokProp_append _ _ _ hC (tokProp_named _ _ _ (Or.inl rfl))
              · cases hlk : lookupStored st.options st.currentValue with
                | none =>
                  rw [stepBare_colon_enter config i st opt hcv hio hf (Or.inr hlk)]
                  refine ⟨?_, hB, ?_⟩
                  · intro h
                    refine ⟨opt, rfl, ?_⟩
                    rw [findOption_name config st.currentValue opt hf]
                    exact hf
                  · exact tokProp_append _ _ _ hC (tokProp_named _ _ _ (Or.inl rfl))
                | some sv =>
                  rw [stepBare_colon_repeat config i st opt hcv hio hf
                    (Bool.of_not_eq_true hmul) (by rw [hlk]; rfl)]
                  refine ⟨fun h => by simp [hio] at h, hB, ?_⟩
                  exact tokProp_append _ _ _ hC (tokProp_named _ _ _ (Or.inr (Or.inl rfl)))
        · rw [stepBare_other config i c st (by simpa using hws) hc1 hc2 hc3]
          exact ⟨fun h => hA h, hB, hC⟩

theorem stepChar_inv (config : List SearchOption) (i : Nat) (c : Char) (st : ParseState)
    (hinv : StInv config st) :
    ∃ st', stepChar config i c st = some st' ∧ StInv config st' := by
  cases hq : st.inQuotes with
  | true =>
    cases he : st.escaped with
    | true =>
      exact ⟨_, by simp [stepChar, hq, he], stepEscaped_inv config i c st hinv⟩
    | false =>
      obtain ⟨st', h1, h2⟩ := stepQuoted_inv config c st hinv
      exact ⟨st', by simp [stepChar, hq, he, h1], h2⟩
  | false =>
    cases hio : st.inOptionValue with
    | true =>
      obtain ⟨st', h1, h2⟩ := stepOptVal_inv config i c st hinv hio
      exact ⟨st', by simp [stepChar, hq, hio, h1], h2⟩
    | false =>
      exact ⟨_, by simp [stepChar, hq, hio], stepBare_inv config i c st hinv hio⟩

theorem completeToken_mq_stInv (config : List SearchOption) (st : ParseState)
    (hinv : StInv config st) (hio : st.inOptionValue = false) :
    StInv config (completeToken .missingQuote st) := by
  obtain ⟨hA, hB, hC⟩ := hinv
  refine ⟨fun h => hA h, hB, ?_⟩
  have hts : (completeToken .missingQuote st).tokens =
      st.tokens ++ [{ type := .missingQuote, content := st.currentTokenText, suggest := .none }] := by
    rw [completeToken_not_iov _ _ hio (by decide)]
    simp
  rw [hts]
  exact tokProp_append _ _ _ hC (tokProp_named _ _ _ (Or.inr (Or.inr rfl)))

theorem finish_inv (config : List SearchOption) (len : Nat) (st : ParseState)
    (hinv : StInv config st) : ∃ st', finish len st = some st' ∧ StInv config st' := by
  cases hq : st.inQuotes with
  | true =>
    have hinv1 : StInv config (completeToken .text st) :=
      completeToken_stInv config .text st hinv (by decide) (by decide) (by decide) (by decide)
        (by decide)
    cases hio : st.inOptionValue with
    | true =>
      obtain ⟨o, hco, hfind⟩ := hinv.1 hio
      obtain ⟨st2, hcov, hinv2, hio2, hct2⟩ := cov_stInv config (completeToken .text st) o
        (by simpa using hco) hfind hinv1 (by simpa using hio)
      refine ⟨completeToken .missingQuote (parseError len "missing quotation mark" st2), ?_, ?_⟩
      · simp [finish, hq, hio, hcov]
      · exact completeToken_mq_stInv config _
          (parseError_stInv config len "missing quotation mark" st2 hinv2) (by simpa using hio2)
    | false =>
      refine ⟨_, by simp [finish, hq, hio]; rfl, ?_⟩
      refine completeToken_mq_stInv config _
        (parseError_stInv config len "missing quotation mark" _
          ⟨fun h => by simp at h, hinv1.2.1, hinv1.2.2⟩) (by simp [hio])
  | false =>
    cases hio : st.inOptionValue with
    | true =>
      obtain ⟨o, hco, hfind⟩ := hinv.1 hio
      obtain ⟨st2, hcov, hinv2, hio2, hct2⟩ := cov_stInv config st o hco hfind hinv hio
      exact ⟨st2, by simp [finish, hq, hio, hcov], hinv2⟩
    | false =>
      by_cases hcv : st.currentValue.length > 0
      · refine ⟨_, by simp [finish, hq, hio, hcv]; rfl, ?_⟩
        exact completeToken_stInv config .text _ ⟨fun h => by simp at h, hinv.2.1, hinv.2.2⟩
          (by decide) (by decide) (by decide) (by decide) (by decide)
      · exact ⟨st, by simp [finish, hq, hio, hcv], hinv⟩

theorem runFrom_inv (config : List SearchOption) (cs : Str) :
    ∀ i st, StInv config st → ∃ st', runFrom config i cs st = some st' ∧ StInv config st' := by
  induction cs with
  | nil => exact fun i st h => ⟨st, rfl, h⟩
  | cons c rest ih =>
    intro i st h
    obtain ⟨st1, h1, hinv1⟩ := stepChar_inv config i c st h
    obtain ⟨st', h2, hinv2⟩ := ih (i + 1) st1 hinv1
    exact ⟨st', by simp [runFrom, h1, h2], hinv2⟩

theorem initState_inv (config : List SearchOption) : StInv config initState := by
  refine ⟨fun h => by simp [initState] at h, fun k sv h => ?_, fun t ht => ?_⟩
  · simp [initState, lookupStored] at h
  · simp [initState] at ht

theorem scanAll_inv (config : List SearchOption) (s : Str) :
    ∃ st', scanAll config s = some st' ∧ StInv config st' := by
  obtain ⟨st1, h1, hinv1⟩ := runFrom_inv config s 0 initState (initState_inv config)
  obtain ⟨st', h2, hinv2⟩ := finish_inv config s.length st1 hinv1
  exact ⟨st', by simp [scanAll, h1, h2], hinv2⟩

theorem parse_cases (s : Str) (config : List SearchOption) :
    ∃ st', scanAll config s = some st' ∧ StInv config st' ∧
      parse s config = some { tokens := st'.tokens
                              error := st'.error
                              result := some { text := st'.text, options := st'.options } } := by
  obtain ⟨st', h1, hinv⟩ := scanAll_inv config s
  exact ⟨st', h1, hinv, by simp [parse, h1]⟩

/-! ## Error monotonicity: a recorded error is never changed -/

theorem cov_error (st st' : ParseState) (h : completeOptionValue st = some st')
    (hiov : st.inOptionValue = true) : st'.error = st.error := by
  obtain ⟨ty, opts2, hshape, _⟩ := cov_fields st st' h hiov
  rw [hshape]

theorem parseError_error_some (pos : Nat) (t : String) (st : ParseState) (e : ParseError)
    (he : st.error = some e) : (parseError pos t st).error = some e := by
  rw [parseError_some pos t st e he]
  exact he

theorem stepEscaped_error (i : Nat) (c : Char) (st : ParseState) (e : ParseError)
    (he : st.error = some e) : (stepEscaped i c st).error = some e := by
  cases hd : escapeSequences c with
  | some d => rw [stepEscaped_hit i c d st hd]; simpa using he
  | none => rw [stepEscaped_miss i c st hd]; simp [he]

theorem stepQuoted_error (c : Char) (st st' : ParseState) (h : stepQuoted c st = some st')
    (e : ParseError) (he : st.error = some e) : st'.error = some e := by
  simp only [stepQuoted] at h
  split at h
  · split at h
    · rename_i hio1
      split at h
      · exact Option.noConfusion h
      · rename_i st2 heq
        obtain rfl := Option.some.inj h
        have hst2 := cov_error _ _ heq hio1
        show st2.error = some e
        rw [hst2]
        exact he
    · obtain rfl := Option.some.inj h
      simpa using he
  · split at h
    · obtain rfl := Option.some.inj h
      simpa using he
    · obtain rfl := Option.some.inj h
      simpa using he

theorem stepOptVal_error (i : Nat) (c : Char) (st st' : ParseState)
    (h : stepOptVal i c st = some st') (hio : st.inOptionValue = true) (e : ParseError)
    (he : st.error = some e) : st'.error = some e := by
  simp only [stepOptVal] at h
  split at h
  · split at h
    · obtain rfl := Option.some.inj h
      simpa using he
    · split at h
      · exact Option.noConfusion h
      · rename_i st1 heq
        obtain rfl := Option.some.inj h
        have hst1 := cov_error _ _ heq (by simpa using hio)
        simp only [completeToken_error]
        show st1.error = some e
        rw [hst1]
        exact parseError_error_some _ _ _ _ he
  · split at h
    · split at h
      · exact Option.noConfusion h
      · rename_i st1 heq
        obtain rfl := Option.some.inj h
        have hst1 := cov_error _ _ heq hio
        simp only [completeToken_error]
        show st1.error = some e
        rw [hst1]
        exact he
    · split at h
      · split at h
        · exact Option.noConfusion h
        · rename_i st1 heq
          obtain rfl := Option.some.inj h
          have hst1 := cov_error _ _ heq (by simpa using hio)
          simp only [completeToken_error]
          show st1.error = some e
          rw [hst1]
          exact parseError_error_some _ _ _ _ he
      · split at h
        · split at h
          · exact Option.noConfusion h
          · rename_i st1 heq
            obtain rfl := Option.some.inj h
            have hst1 := cov_error _ _ heq (by simpa using hio)
            simp only [completeToken_error]
            show st1.error = some e
            rw [hst1]
            exact parseError_error_some _ _ _ _ he
        · obtain rfl := Option.some.inj h
          simpa using he

theorem stepBare_error (config : List SearchOption) (i : Nat) (c : Char) (st : ParseState)
    (hio : st.inOptionValue = false) (e : ParseError) (he : st.error = some e) :
    (stepBare config i c st).error = some e := by
  by_cases hws : jsWhitespace c = true
  · rw [stepBare_ws config i c st hws hio]
    simpa using he
  · by_cases hc1 : c = '"'
    · subst hc1
      by_cases hlen : st.currentTokenText.length = 0
      · rw [stepBare_quote_open config i st (by decide) hlen]
        simpa using he
      · rw [stepBare_quote_mid config i st hlen hio]
        simp [he]
    · by_cases hc2 : c = '\\'
      · subst hc2
        rw [stepBare_backslash config i st hio]
        simp [he]
      · by_cases hc3 : c = ':'
        · subst hc3
          by_cases hcv : st.currentValue.length = 0
          · rw [stepBare_colon_empty config i st hcv hio]
            simp [he]
          · cases hf : findOption config st.currentValue with
            | none =>
              rw [stepBare_colon_unknown config i st hcv hio hf]
              simp [he]
            | some opt =>
              by_cases hmul : opt.multiple = true
              · rw [stepBare_colon_enter config i st opt hcv hio hf (Or.inl hmul)]
                simpa using he
              · cases hlk : lookupStored st.options st.currentValue with
                | none =>
                  rw [stepBare_colon_enter config i st opt hcv hio hf (Or.inr hlk)]
                  simpa using he
                | some sv =>
                  rw [stepBare_colon_repeat config i st opt hcv hio hf
                    (Bool.of_not_eq_true hmul) (by rw [hlk]; rfl)]
                  simp [he]
        · rw [stepBare_other config i c st (by simpa using hws) hc1 hc2 hc3]
          simpa using he

theorem stepChar_error (config : List SearchOption) (i : Nat) (c : Char) (st st' : ParseState)
    (h : stepChar config i c st = some st') (e : ParseError) (he : st.error = some e) :
    st'.error = some e := by
  cases hq : st.inQuotes with
  | true =>
    cases hesc : st.escaped with
    | true =>
      rw [stepChar, if_pos hq, if_pos hesc] at h
      obtain rfl := Option.some.inj h
      exact stepEscaped_error i c st e he
    | false =>
      rw [stepChar, if_pos hq, if_neg (by simp [hesc])] at h
      exact stepQuoted_error c st st' h e he
  | false =>
    cases hio : st.inOptionValue with
    | true =>
      rw [stepChar, if_neg (by simp [hq]), if_pos hio] at h
      exact stepOptVal_error i c st st' h hio e he
    | false =>
      rw [stepChar, if_neg (by simp [hq]), if_neg (by simp [hio])] at h
      obtain rfl := Option.some.inj h
      exact stepBare_error config i c st hio e he

theorem runFrom_error (config : List SearchOption) (cs : Str) :
    ∀ i st st' e, runFrom config i cs st = some st' → st.error = some e →
      st'.error = some e := by
  induction cs with
  | nil =>
    intro i st st' e h he
    obtain rfl := Option.some.inj h
    exact he
  | cons c rest ih =>
    intro i st st' e h he
    simp only [runFrom] at h
    cases hstep : stepChar config i c st with
    | none => rw [hstep] at h; exact Option.noConfusion h
    | some st1 =>
      rw [hstep] at h
      exact ih (i + 1) st1 st' e h (stepChar_error config i c st st1 hstep e he)

theorem finish_error (len : Nat) (st st' : ParseState) (h : finish len st = some st')
    (e : ParseError) (he : st.error = some e) : st'.error = some e := by
  simp only [finish] at h
  split at h
  · split at h
    · exact Option.noConfusion h
    · rename_i st2 heq
      obtain rfl := Option.some.inj h
      simp only [completeToken_error]
      refine parseError_error_some _ _ _ _ ?_
      split at heq
      · rename_i hio1
        rw [cov_error _ _ heq hio1]
        simpa using he
      · obtain rfl := Option.some.inj heq
        simpa using he
  · split at h
    · rename_i hio1
      have hst := cov_error _ _ h hio1
      rw [hst]
      exact he
    · split at h
      · obtain rfl := Option.some.inj h
        simpa using he
      · obtain rfl := Option.some.inj h
        exact he

/-! ## Raw text concatenation -/

theorem joinToks_append (ts ts2 : List Token) :
    joinToks (ts ++ ts2) = joinToks ts ++ joinToks ts2 := by
  simp [joinToks]

@[simp] theorem joinToks_single (t : Token) : joinToks [t] = t.content := by
  simp [joinToks]

@[simp] theorem joinToks_nil : joinToks [] = [] := rfl

/-- In bare text mode a non-empty raw accumulator implies a non-empty
decoded accumulator (so the final flush never drops raw text). -/
def BareJ (st : ParseState) : Prop :=
  st.inQuotes = false → st.inOptionValue = false →
    st.currentTokenText ≠ [] → st.currentValue ≠ []

theorem completeToken_join (ty : TokenType) (st : ParseState) :
    joinToks (completeToken ty st).tokens = joinToks st.tokens ++ st.currentTokenText := by
  simp [completeToken, joinToks_append]

theorem stepChar_join (config : List SearchOption) (i : Nat) (c : Char) (st st' : ParseState)
    (h : stepChar config i c st = some st')
    (hbs : c ≠ '\\') (hws1 : jsWhitespace c = true → c = ' ')
    (hesc : st.escaped = false) (hJ : BareJ st) :
    joinToks st'.tokens ++ st'.currentTokenText =
      joinToks st.tokens ++ st.currentTokenText ++ [c] ∧
    st'.escaped = false ∧ BareJ st' := by
  cases hq : st.inQuotes with
  | true =>
    rw [stepChar, if_pos hq, if_neg (by simp [hesc])] at h
    by_cases hc1 : c = '"'
    · subst hc1
      cases hio : st.inOptionValue with
      | false =>
        rw [stepQuoted_close_text st hio] at h
        obtain rfl := Option.some.inj h
        refine ⟨by simp [joinToks_append, List.append_assoc], by simpa using hesc, ?_⟩
        intro _ _ h3
        simp at h3
      | true =>
        simp only [stepQuoted, if_pos rfl, hio, if_true] at h
        split at h
        · exact Option.noConfusion h
        · rename_i st2 heq
          obtain rfl := Option.some.inj h
          obtain ⟨ty, opts2, hshape, _⟩ := cov_fields _ _ heq (by simpa using hio)
          refine ⟨?_, ?_, ?_⟩
          · show joinToks st2.tokens ++ st2.currentTokenText = _
            rw [hshape]
            simp [joinToks_append, List.append_assoc]
          · show st2.escaped = false
            rw [hshape]
            simpa using hesc
          · intro _ _ h3
            show st2.currentValue ≠ []
            rw [hshape] at h3
            simp at h3
    · rw [stepQuoted_other c st hc1 hbs] at h
      obtain rfl := Option.some.inj h
      refine ⟨by simp [List.append_assoc], by simpa using hesc, ?_⟩
      intro h1
      simp [hq] at h1
  | false =>
    cases hio : st.inOptionValue with
    | true =>
      rw [stepChar, if_neg (by simp [hq]), if_pos hio] at h
      simp only [stepOptVal] at h
      split at h
      · rename_i hc1
        subst hc1
        split at h
        · rename_i hlen
          obtain rfl := Option.some.inj h
          have hctt : st.currentTokenText = [] := List.length_eq_zero.mp hlen
          exact ⟨by simp [hctt], by simpa using hesc, fun h1 => by simp at h1⟩
        · split at h
          · exact Option.noConfusion h
          · rename_i st1 heq
            obtain rfl := Option.some.inj h
            obtain ⟨ty, opts2, hshape, _⟩ := cov_fields _ _ heq (by simpa using hio)
            refine ⟨?_, ?_, fun _ _ h3 => by simp at h3⟩
            · simp only [completeToken_join, completeToken_currentTokenText, List.append_nil]
              show joinToks st1.tokens ++ ['"'] = _
              rw [hshape]
              simp [joinToks_append, List.append_assoc]
            · simp only [completeToken_escaped]
              show st1.escaped = false
              rw [hshape]
              simpa using hesc
      · split at h
        · rename_i hws
          have hc : c = ' ' := hws1 hws
          subst hc
          split at h
          · exact Option.noConfusion h
          · rename_i st1 heq
            obtain rfl := Option.some.inj h
            obtain ⟨ty, opts2, hshape, _⟩ := cov_fields _ _ heq hio
            refine ⟨?_, ?_, fun _ _ h3 => by simp at h3⟩
            · simp only [completeToken_join, completeToken_currentTokenText, List.append_nil]
              show joinToks st1.tokens ++ [' '] = _
              rw [hshape]
              simp [joinToks_append, List.append_assoc]
            · simp only [completeToken_escaped]
              show st1.escaped = false
              rw [hshape]
              simpa using hesc
        · split at h
          · rename_i hc3
            subst hc3
            split at h
            · exact Option.noConfusion h
            · rename_i st1 heq
              obtain rfl := Option.some.inj h
              obtain ⟨ty, opts2, hshape, _⟩ := cov_fields _ _ heq (by simpa using hio)
              refine ⟨?_, ?_, fun _ _ h3 => by simp at h3⟩
              · simp only [completeToken_join, completeToken_currentTokenText, List.append_nil]
                show joinToks st1.tokens ++ [':'] = _
                rw [hshape]
                simp [joinToks_append, List.append_assoc]
              · simp only [completeToken_escaped]
                show st1.escaped = false
                rw [hshape]
                simpa using hesc
          · obtain rfl := Option.some.inj h
            refine ⟨by simp [List.append_assoc], by simpa using hesc, ?_⟩
            intro _ h2
            simp [hio] at h2
    | false =>
      rw [stepChar, if_neg (by simp [hq]), if_neg (by simp [hio])] at h
      obtain rfl := Option.some.inj h
      by_cases hws : jsWhitespace c = true
      · have hc : c = ' ' := hws1 hws
        subst hc
        rw [stepBare_ws config i ' ' st hws hio]
        by_cases hlen : st.currentTokenText.length > 0
        · simp only [if_pos hlen]
          refine ⟨by simp [joinToks_append, joinToks, List.append_assoc],
            by simpa using hesc, fun _ _ h3 => by simp at h3⟩
        · simp only [if_neg hlen]
          have hctt : st.currentTokenText = [] :=
            List.length_eq_zero.mp (Nat.eq_zero_of_not_pos hlen)
          refine ⟨by simp [joinToks_append, hctt], by simpa using hesc,
            fun _ _ h3 => by simp at h3⟩
      · by_cases hc1 : c = '"'
        · subst hc1
          by_cases hlen : st.currentTokenText.length = 0
          · rw [stepBare_quote_open config i st (by decide) hlen]
            have hctt : st.currentTokenText = [] := List.length_eq_zero.mp hlen
            exact ⟨by simp [hctt], by simpa using hesc, fun h1 => by simp at h1⟩
          · rw [stepBare_quote_mid config i st hlen hio]
            exact ⟨by simp [joinToks_append, joinToks, List.append_assoc],
              by simpa using hesc, fun _ _ h3 => by simp at h3⟩
        · by_cases hc3 : c = ':'
          · subst hc3
            by_cases hcv : st.currentValue.length = 0
            · rw [stepBare_colon_empty config i st hcv hio]
              exact ⟨by simp [joinToks_append, List.append_assoc], by simpa using hesc,
                fun _ _ h3 => by simp at h3⟩
            · cases hf : findOption config st.currentValue with
              | none =>
                rw [stepBare_colon_unknown config i st hcv hio hf]
                exact ⟨by simp [joinToks_append, List.append_assoc], by simpa using hesc,
                  fun _ _ h3 => by simp at h3⟩
              | some opt =>
                by_cases hmul : opt.multiple = true
                · rw [stepBare_colon_enter config i st opt hcv hio hf (Or.inl hmul)]
                  refine ⟨by simp [joinToks_append, List.append_assoc], by simpa using hesc, ?_⟩
                  intro _ h2
                  simp at h2
                · cases hlk : lookupStored st.options st.currentValue with
                  | none =>
                    rw [stepBare_colon_enter config i st opt hcv hio hf (Or.inr hlk)]
                    refine ⟨by simp [joinToks_append, List.append_assoc], by simpa using hesc, ?_⟩
                    intro _ h2
                    simp at h2
                  | some sv =>
                    rw [stepBare_colon_repeat config i st opt hcv hio hf
                      (Bool.of_not_eq_true hmul) (by rw [hlk]; rfl)]
                    exact ⟨by simp [joinToks_append, List.append_assoc], by simpa using hesc,
                      fun _ _ h3 => by simp at h3⟩
          · rw [stepBare_other config i c st (by simpa using hws) hc1 hbs hc3]
            exact ⟨by simp [List.append_assoc], by simpa using hesc, fun _ _ _ => by simp⟩

theorem runFrom_join (config : List SearchOption) (cs : Str) :
    ∀ i st st', runFrom config i cs st = some st' →
      (∀ c ∈ cs, c ≠ '\\' ∧ (jsWhitespace c = true → c = ' ')) →
      st.escaped = false → BareJ st →
      joinToks st'.tokens ++ st'.currentTokenText =
        joinToks st.tokens ++ st.currentTokenText ++ cs ∧
      st'.escaped = false ∧ BareJ st' := by
  induction cs with
  | nil =>
    intro i st st' h _ hesc hJ
    obtain rfl := Option.some.inj h
    exact ⟨by simp, hesc, hJ⟩
  | cons c rest ih =>
    intro i st st' h hcs hesc hJ
    simp only [runFrom] at h
    cases hstep : stepChar config i c st with
    | none =>
      rw [hstep] at h
      exact Option.noConfusion h
    | some st1 =>
      rw [hstep] at h
      obtain ⟨hj1, hesc1, hJ1⟩ := stepChar_join config i c st st1 hstep
        (hcs c (by simp)).1 (hcs c (by simp)).2 hesc hJ
      obtain ⟨hj2, hesc2, hJ2⟩ := ih (i + 1) st1 st' h
        (fun c' hc' => hcs c' (by simp [hc'])) hesc1 hJ1
      refine ⟨?_, hesc2, hJ2⟩
      rw [hj2, hj1]
      simp [List.append_assoc]

theorem finish_join (len : Nat) (st st' : ParseState) (h : finish len st = some st')
    (hJ : BareJ st) :
    joinToks st'.tokens = joinToks st.tokens ++ st.currentTokenText := by
  simp only [finish] at h
  split at h
  · split at h
    · exact Option.noConfusion h
    · rename_i st2 heq
      obtain rfl := Option.some.inj h
      rw [completeToken_join, parseError_tokens, parseError_currentTokenText]
      split at heq
      · rename_i hio1
        obtain ⟨ty, opts2, hshape, _⟩ := cov_fields _ _ heq hio1
        rw [hshape]
        simp [joinToks_append, completeToken_join]
      · obtain rfl := Option.some.inj heq
        simp [completeToken_join]
  · split at h
    · rename_i hio1
      obtain ⟨ty, opts2, hshape, _⟩ := cov_fields _ _ h hio1
      rw [hshape]
      simp [joinToks_append]
    · split at h
      · obtain rfl := Option.some.inj h
        simp [completeToken_join]
      · obtain rfl := Option.some.inj h
        rename_i hq2 hio2 hcv
        have hctt : st.currentTokenText = [] := by
          by_contra hne
          exact hJ (Bool.of_not_eq_true hq2) (Bool.of_not_eq_true hio2) hne
            (List.length_eq_zero.mp (Nat.eq_zero_of_not_pos hcv))
        rw [hctt]
        simp

/-! ## Clean inputs: no colon, quote or backslash -/

/-- The scanner state reachable on inputs with no colon, quote or
backslash: bare mode, decoded and raw accumulators equal. -/
def Clean (st : ParseState) : Prop :=
  st.inQuotes = false ∧ st.inOptionValue = false ∧ st.currentValue = st.currentTokenText

theorem stepChar_clean_ws (config : List SearchOption) (i : Nat) (c : Char) (st : ParseState)
    (hcl : Clean st) (hws : jsWhitespace c = true) :
    stepChar config i c st = some { st with
      tokens := st.tokens ++
        (if st.currentTokenText.length > 0 then
          [{ type := .text, content := st.currentTokenText, suggest := .options },
           { type := .space, content := [' '], suggest := .options }]
        else [{ type := .space, content := [' '], suggest := .options }])
      text := st.text ++ (if st.currentTokenText.length > 0 then [st.currentValue] else [])
      currentTokenText := [], currentValue := [] } := by
  obtain ⟨hq, hio, _⟩ := hcl
  rw [stepChar, if_neg (by simp [hq]), if_neg (by simp [hio]),
    stepBare_ws config i c st hws hio]

theorem stepChar_clean_other (config : List SearchOption) (i : Nat) (c : Char)
    (st : ParseState) (hcl : Clean st) (hws : jsWhitespace c = false)
    (h1 : c ≠ '"') (h2 : c ≠ '\\') (h3 : c ≠ ':') :
    stepChar config i c st = some { st with
      currentTokenText := st.currentTokenText ++ [c]
      currentValue := st.currentValue ++ [c] } := by
  obtain ⟨hq, hio, _⟩ := hcl
  rw [stepChar, if_neg (by simp [hq]), if_neg (by simp [hio]),
    stepBare_other config i c st hws h1 h2 h3]

theorem runFrom_clean (config : List SearchOption) (cs : Str) :
    (∀ c ∈ cs, c ≠ ':' ∧ c ≠ '"' ∧ c ≠ '\\') →
    ∀ i st, Clean st → ∃ st', runFrom config i cs st = some st' ∧ Clean st' ∧
      st'.options = st.options ∧ st'.error = st.error ∧
      st'.text ++ (if st'.currentValue = [] then [] else [st'.currentValue]) =
        st.text ++ specWordsAux cs st.currentValue := by
  induction cs with
  | nil =>
    intro _ i st hcl
    exact ⟨st, rfl, hcl, rfl, rfl, by simp [specWordsAux]⟩
  | cons c rest ih =>
    intro hcs i st hcl
    obtain ⟨hc3, hc1, hc2⟩ := hcs c (by simp)
    obtain ⟨hq, hio, hcv⟩ := hcl
    by_cases hws : jsWhitespace c = true
    · obtain ⟨st', hrun, hcl', hopts, herr, htext⟩ :=
        ih (fun c' h' => hcs c' (by simp [h'])) (i + 1)
          { st with
            tokens := st.tokens ++
              (if st.currentTokenText.length > 0 then
                [{ type := .text, content := st.currentTokenText, suggest := .options },
                 { type := .space, content := [' '], suggest := .options }]
              else [{ type := .space, content := [' '], suggest := .options }])
            text := st.text ++ (if st.currentTokenText.length > 0 then [st.currentValue] else [])
            currentTokenText := [], currentValue := [] }
          ⟨hq, hio, rfl⟩
      refine ⟨st', ?_, hcl', by simpa using hopts, by simpa using herr, ?_⟩
      · rw [runFrom, stepChar_clean_ws config i c st ⟨hq, hio, hcv⟩ hws]
        exact hrun
      · rw [htext]
        by_cases hlen : st.currentTokenText.length > 0
        · have hvne : st.currentValue ≠ [] := by
            rw [hcv]
            intro hnil
            simp [hnil] at hlen
          simp only [if_pos hlen, specWordsAux, hws, if_true]
          rw [if_neg hvne]
          simp [List.append_assoc]
        · have hveq : st.currentValue = [] := by
            rw [hcv]
            exact List.length_eq_zero.mp (Nat.eq_zero_of_not_pos hlen)
          simp only [if_neg hlen, specWordsAux, hws, if_true]
          rw [if_pos hveq]
          simp
    · obtain ⟨st', hrun, hcl', hopts, herr, htext⟩ :=
        ih (fun c' h' => hcs c' (by simp [h'])) (i + 1)
          { st with
            currentTokenText := st.currentTokenText ++ [c]
            currentValue := st.currentValue ++ [c] }
          ⟨hq, hio, by simp [hcv]⟩
      refine ⟨st', ?_, hcl', by simpa using hopts, by simpa using herr, ?_⟩
      · rw [runFrom, stepChar_clean_other config i c st ⟨hq, hio, hcv⟩ (by simpa using hws)
          hc1 hc2 hc3]
        exact hrun
      · rw [htext]
        simp only [specWordsAux, hws]
        simp

theorem finish_clean (len : Nat) (st : ParseState) (hcl : Clean st) :
    ∃ st', finish len st = some st' ∧
      st'.text = st.text ++ (if st.currentValue = [] then [] else [st.currentValue]) ∧
      st'.options = st.options ∧ st'.error = st.error := by
  obtain ⟨hq, hio, _⟩ := hcl
  by_cases hval : st.currentValue.length > 0
  · refine ⟨completeToken .text { st with text := st.text ++ [st.currentValue] }, ?_, ?_, by simp, by simp⟩
    · simp [finish, hq, hio, hval]
    · have hvne : st.currentValue ≠ [] := by
        intro hnil
        simp [hnil] at hval
      simp [if_neg hvne]
  · refine ⟨st, by simp [finish, hq, hio, hval], ?_, rfl, rfl⟩
    have hveq : st.currentValue = [] := List.length_eq_zero.mp (Nat.eq_zero_of_not_pos hval)
    simp [hveq]

/-! ## End of input while still quoting -/

theorem finish_quote_spec (config : List SearchOption) (len : Nat) (st : ParseState)
    (hinv : StInv config st) (hq : st.inQuotes = true) :
    ∃ st' sg mid, finish len st = some st' ∧
      (st.error = none → st'.error = some { position := len, text := "missing quotation mark" }) ∧
      st'.tokens = st.tokens ++
        ({ type := .text, content := st.currentTokenText, suggest := sg } :: mid ++
          [{ type := .missingQuote, content := [], suggest := .none }]) ∧
      (st.inOptionValue = false → st'.text = st.text ++ [st.currentValue] ∧ mid = []) := by
  have hinv1 : StInv config (completeToken .text st) :=
    completeToken_stInv config .text st hinv (by decide) (by decide) (by decide) (by decide)
      (by decide)
  cases hio : st.inOptionValue with
  | true =>
    obtain ⟨o, hco, hfind⟩ := hinv.1 hio
    obtain ⟨st2, hcov, hinv2, hio2, hct2⟩ := cov_stInv config (completeToken .text st) o
      (by simpa using hco) hfind hinv1 (by simpa using hio)
    obtain ⟨ty, opts2, hshape, htys⟩ := cov_fields _ _ hcov (by simpa using hio)
    refine ⟨completeToken .missingQuote (parseError len "missing quotation mark" st2),
      .spec st.currentOption, [{ type := ty, content := [], suggest := .spec st.currentOption }],
      ?_, ?_, ?_, ?_⟩
    · simp [finish, hq, hio, hcov]
    · intro herr
      have hst2 : st2.error = none := by
        rw [hshape]
        simpa using herr
      rw [completeToken_error, parseError_error, hst2]
      simp
    · rw [completeToken_not_iov _ _ (by simpa using hio2) (by decide)]
      simp only [parseError_tokens, parseError_currentTokenText, hct2]
      rw [hshape]
      rw [completeToken_iov .text st hio]
      simp
    · intro hfalse
      exact absurd hfalse (by decide)
  | false =>
    refine ⟨completeToken .missingQuote (parseError len "missing quotation mark"
        { completeToken .text st with
          text := (completeToken .text st).text ++ [(completeToken .text st).currentValue] }),
      .options, [], ?_, ?_, ?_, ?_⟩
    · simp [finish, hq, hio]
    · intro herr
      rw [completeToken_error, parseError_error]
      simp [herr]
    · rw [completeToken_not_iov _ _ (by simpa using hio) (by decide)]
      simp only [parseError_tokens, parseError_currentTokenText]
      rw [completeToken_not_iov .text st hio (by decide)]
      simp
    · intro _
      refine ⟨?_, rfl⟩
      rw [completeToken_text, parseError_text]
      simp

/-! ## Concrete schemas used by the claim instances -/

/-- A non-multiple string option named tag. -/
def tagSingle : SearchOption := { name := lit "tag", multiple := false, type := .string }

/-- A multiple string option named tag. -/
def tagMulti : SearchOption := { name := lit "tag", multiple := true, type := .string }

/-- A non-multiple string option named t. -/
def tOptS : SearchOption := { name := lit "t", multiple := false, type := .string }

/-- A multiple string option named t. -/
def tOptM : SearchOption := { name := lit "t", multiple := true, type := .string }

/-- A non-multiple number option named n. -/
def numOptN : SearchOption := { name := lit "n", multiple := false, type := .number }

/-- A canonical scanner state sitting right after `name:` with decoded
value v accumulated: used to state the value-coercion rules. -/
def valState (opt : SearchOption) (v : Str) : ParseState :=
  { currentOption := some opt, inOptionValue := true, currentValue := v, currentTokenText := v }

/-- A scanner state inside an unterminated quote, for the end-of-input
witness. -/
def c7state : ParseState :=
  { inQuotes := true, currentTokenText := lit "\"x", currentValue := lit "x" }

/-! ## Claims -/

/-- C1 (corrected): concatenating the rawText of all tokens reproduces the
input for every schema and every input whose characters contain no
backslash and whose whitespace characters are all the ASCII space. (As
stated over all inputs the claim fails: every consumed unquoted whitespace
character is re-emitted as a plain space, and a bare-mode backslash error
discards the raw text of the pending word; see the counterexample.) -/
theorem c1_rawtext_concat (s : Str) (cfg : List SearchOption) (r : ParseResult)
    (hchar : ∀ c ∈ s, c ≠ '\\' ∧ (jsWhitespace c = true → c = ' '))
    (h : parse s cfg = some r) :
    joinToks r.tokens = s := by
  obtain ⟨st', hscan, hinv, hparse⟩ := parse_cases s cfg
  rw [hparse] at h
  obtain rfl := Option.some.inj h
  show joinToks st'.tokens = s
  simp only [scanAll] at hscan
  cases hrun : runFrom cfg 0 s initState with
  | none =>
    rw [hrun] at hscan
    exact Option.noConfusion hscan
  | some st1 =>
    rw [hrun] at hscan
    obtain ⟨hj1, hesc1, hJ1⟩ := runFrom_join cfg s 0 initState st1 hrun hchar rfl
      (fun _ _ hne => absurd rfl hne)
    have hj2 := finish_join s.length st1 st' hscan hJ1
    rw [hj2, hj1]
    simp [initState]

/-- C1 witness: on a concrete clean input the concatenation is the input. -/
theorem c1_rawtext_concat_witness :
    joinToks [{ type := .text, content := lit "a", suggest := .options },
      { type := .space, content := [' '], suggest := .options },
      { type := .text, content := lit "b", suggest := .options }] = lit "a b" :=
  c1_rawtext_concat (lit "a b") []
    { tokens := [{ type := .text, content := lit "a", suggest := .options },
        { type := .space, content := [' '], suggest := .options },
        { type := .text, content := lit "b", suggest := .options }]
      error := none
      result := some { text := [lit "a", lit "b"], options := [] } }
    (by decide) (by decide)

/-- C1 counterexample: for the input consisting of one tab the token texts
concatenate to one space, and for ab backslash c the pending raw text ab
is dropped, so the claim fails as stated. -/
theorem c1_rawtext_concat_cx :
    ((parse (lit "\t") []).map fun r => joinToks r.tokens) ≠ some (lit "\t") ∧
    ((parse (lit "ab\\c") []).map fun r => joinToks r.tokens) ≠ some (lit "ab\\c") := by
  decide

/-- C2: parse is total: it never throws (the logic-error throw and the
push-on-single TypeError are unreachable) and always returns a record with
a non-null result. -/
theorem c2_parse_total (s : Str) (cfg : List SearchOption) :
    ∃ r, parse s cfg = some r ∧ r.result ≠ none := by
  obtain ⟨st', hscan, hinv, hparse⟩ := parse_cases s cfg
  exact ⟨_, hparse, by simp⟩

/-- C3: at most one ParseError is ever recorded (the error slot holds at
most one value); parseError is a no-op once an error exists; a recorded
error survives the rest of the scan and end-of-input handling unchanged,
and scanning always runs to completion. -/
theorem c3_first_error_wins :
    (∀ (p : Nat) (t : String) (st : ParseState), st.error ≠ none → parseError p t st = st) ∧
    (∀ (cfg : List SearchOption) (i : Nat) (cs : Str) (st st' : ParseState) (e : ParseError),
      runFrom cfg i cs st = some st' → st.error = some e → st'.error = some e) ∧
    (∀ (len : Nat) (st st' : ParseState) (e : ParseError),
      finish len st = some st' → st.error = some e → st'.error = some e) ∧
    (∀ (s : Str) (cfg : List SearchOption), ∃ r, parse s cfg = some r) := by
  refine ⟨?_, ?_, ?_, ?_⟩
  · intro p t st h
    cases herr : st.error with
    | none => exact absurd herr h
    | some e => exact parseError_some p t st e herr
  · intro cfg i cs st st' e h he
    exact runFrom_error cfg cs i st st' e h he
  · intro len st st' e h he
    exact finish_error len st st' h e he
  · intro s cfg
    obtain ⟨st', _, _, hparse⟩ := parse_cases s cfg
    exact ⟨_, hparse⟩

/-- C3 witness: a later parseError call on a state that already holds an
error leaves the state unchanged. -/
theorem c3_first_error_wins_witness :
    parseError 5 "later" { initState with error := some { position := 1, text := "first" } } =
      { initState with error := some { position := 1, text := "first" } } :=
  c3_first_error_wins.1 5 "later" _ (by decide)

/-- C4 (corrected): coercion of a non-empty raw option value: Boolean
accepts exactly the literals yes (true) and no (false); String stores the
raw value unchanged; Enum accepts exactly the members of the choices
list; no trimming or case folding happens for those three types. For a
Number option, however, acceptance is exactly that of the JavaScript
Number() conversion (jsNumberAccepts): decimal, hex 0x, octal 0o, binary
0b and Infinity literals, with surrounding JS whitespace trimmed and
whitespace-only values accepted as zero, not only plain decimal literals;
see the counterexample. -/
theorem c4_value_coercion (opt : SearchOption) (v : Str)
    (hmul : opt.multiple = false) (hv : v ≠ []) :
    ∃ st', completeOptionValue (valState opt v) = some st' ∧
      ((opt.type = .boolean →
        (v = lit "yes" → st'.options = [(opt.name, .single (.bool true))]) ∧
        (v = lit "no" → st'.options = [(opt.name, .single (.bool false))]) ∧
        (v ≠ lit "yes" → v ≠ lit "no" → st'.options = [])) ∧
      (opt.type = .string → st'.options = [(opt.name, .single (.str v))]) ∧
      (∀ choices, opt.type = .enum choices →
        (v ∈ choices → st'.options = [(opt.name, .single (.str v))]) ∧
        (v ∉ choices → st'.options = [])) ∧
      (opt.type = .number →
        (jsNumberAccepts v = true → st'.options = [(opt.name, .single (.num v))]) ∧
        (jsNumberAccepts v = false → st'.options = []))) := by
  have hlen : ¬(List.length v = 0) := fun h => hv (List.length_eq_zero.mp h)
  simp only [completeOptionValue, valState]
  rw [if_neg hlen]
  cases hty : opt.type with
  | boolean =>
    dsimp only
    by_cases hyes : v = lit "yes"
    · rw [if_pos hyes]
      dsimp only
      simp only [storeOption, hmul, Bool.false_eq_true, if_false]
      refine ⟨_, rfl, ?_, ?_, ?_, ?_⟩
      · intro _
        refine ⟨fun _ => ?_, fun hno => ?_, fun hny _ => absurd hyes hny⟩
        · simp [completeToken, setStored]
        · rw [hyes] at hno
          exact absurd hno (by decide)
      · intro hcontra
        exact absurd hcontra (by simp)
      · intro choices hcontra
        exact absurd hcontra (by simp)
      · intro hcontra
        exact absurd hcontra (by simp)
    · rw [if_neg hyes]
      by_cases hno : v = lit "no"
      · rw [if_pos hno]
        dsimp only
        simp only [storeOption, hmul, Bool.false_eq_true, if_false]
        refine ⟨_, rfl, ?_, ?_, ?_, ?_⟩
        · intro _
          refine ⟨fun hy => absurd hy hyes, fun _ => ?_, fun _ hnn => absurd hno hnn⟩
          simp [completeToken, setStored]
        · intro hcontra
          exact absurd hcontra (by simp)
        · intro choices hcontra
          exact absurd hcontra (by simp)
        · intro hcontra
          exact absurd hcontra (by simp)
      · rw [if_neg hno]
        dsimp only
        refine ⟨_, rfl, ?_, ?_, ?_, ?_⟩
        · intro _
          exact ⟨fun hy => absurd hy hyes, fun hn => absurd hn hno, fun _ _ => by simp [completeToken]⟩
        · intro hcontra
          exact absurd hcontra (by simp)
        · intro choices hcontra
          exact absurd hcontra (by simp)
        · intro hcontra
          exact absurd hcontra (by simp)
  | string =>
    dsimp only
    simp only [storeOption, hmul, Bool.false_eq_true, if_false]
    refine ⟨_, rfl, ?_, ?_, ?_, ?_⟩
    · intro hcontra
      exact absurd hcontra (by simp)
    · intro _
      simp [completeToken, setStored]
    · intro choices hcontra
      exact absurd hcontra (by simp)
    · intro hcontra
      exact absurd hcontra (by simp)
  | number =>
    dsimp only
    by_cases hn : jsNumberAccepts v = true
    · rw [if_pos hn]
      dsimp only
      simp only [storeOption, hmul, Bool.false_eq_true, if_false]
      refine ⟨_, rfl, ?_, ?_, ?_, ?_⟩
      · intro hcontra
        exact absurd hcontra (by simp)
      · intro hcontra
        exact absurd hcontra (by simp)
      · intro choices hcontra
        exact absurd hcontra (by simp)
      · intro _
        refine ⟨fun _ => by simp [completeToken, setStored], fun hf => ?_⟩
        rw [hn] at hf
        exact absurd hf (by decide)
    · rw [if_neg hn]
      dsimp only
      refine ⟨_, rfl, ?_, ?_, ?_, ?_⟩
      · intro hcontra
        exact absurd hcontra (by simp)
      · intro hcontra
        exact absurd hcontra (by simp)
      · intro choices hcontra
        exact absurd hcontra (by simp)
      · intro _
        refine ⟨fun ht => absurd ht hn, fun _ => by simp [completeToken]⟩
  | enum choices =>
    dsimp only
    by_cases hm : v ∈ choices
    · rw [if_pos hm]
      dsimp only
      simp only [storeOption, hmul, Bool.false_eq_true, if_false]
      refine ⟨_, rfl, ?_, ?_, ?_, ?_⟩
      · intro hcontra
        exact absurd hcontra (by simp)
      · intro hcontra
        exact absurd hcontra (by simp)
      · intro choices2 heq
        injection heq with heq
        subst heq
        exact ⟨fun _ => by simp [completeToken, setStored], fun hnm => absurd hm hnm⟩
      · intro hcontra
        exact absurd hcontra (by simp)
    · rw [if_neg hm]
      dsimp only
      refine ⟨_, rfl, ?_, ?_, ?_, ?_⟩
      · intro hcontra
        exact absurd hcontra (by simp)
      · intro hcontra
        exact absurd hcontra (by simp)
      · intro choices2 heq
        injection heq with heq
        subst heq
        exact ⟨fun hmem => absurd hmem hm, fun _ => by simp [completeToken]⟩
      · intro hcontra
        exact absurd hcontra (by simp)

/-- C4 witness: a Boolean option with raw value yes stores true. -/
theorem c4_value_coercion_witness :
    ∃ st', completeOptionValue
        (valState { name := lit "b", multiple := false, type := .boolean } (lit "yes")) =
        some st' ∧
      st'.options = [(lit "b", .single (.bool true))] := by
  obtain ⟨st', hcov, hbool, _, _, _⟩ :=
    c4_value_coercion { name := lit "b", multiple := false, type := .boolean } (lit "yes")
      (by decide) (by decide)
  exact ⟨st', hcov, (hbool rfl).1 rfl⟩

/-- C4 counterexample: the Number coercion accepts the hex literal 0x10,
which is not a decimal literal, and accepts the quoted value with
surrounding spaces, so the claim as stated (only decimal literals, no
implicit trimming) is false. -/
theorem c4_value_coercion_cx :
    parse (lit "n:0x10") [numOptN] = some
      { tokens := [{ type := .optionName, content := lit "n:", suggest := .none },
          { type := .numeric, content := lit "0x10", suggest := .spec (some numOptN) }]
        error := none
        result := some { text := [], options := [(lit "n", .single (.num (lit "0x10")))] } } ∧
    strDecimal (lit "0x10") = false ∧
    parse (lit "n:\" 5 \"") [numOptN] = some
      { tokens := [{ type := .optionName, content := lit "n:", suggest := .none },
          { type := .numeric, content := lit "\" 5 \"", suggest := .spec (some numOptN) }]
        error := none
        result := some { text := [], options := [(lit "n", .single (.num (lit " 5 ")))] } } := by
  refine ⟨by decide, by decide, by decide⟩

/-- C5: naming a non-multiple option that is already set, followed by a
colon, emits an InvalidOptionName token, records the illegally repeated
option error at the colon, keeps the first value, stays out of
option-value mode, and scans the rest as bare text. -/
theorem c5_repeated_option :
    parse (lit "tag:a tag:b") [tagSingle] = some
      { tokens := [{ type := .optionName, content := lit "tag:", suggest := .none },
          { type := .text, content := lit "a", suggest := .spec (some tagSingle) },
          { type := .space, content := [' '], suggest := .options },
          { type := .invalidOptionName, content := lit "tag:", suggest := .none },
          { type := .text, content := lit "b", suggest := .options }]
        error := some { position := 9, text := "illegally repeated option" }
        result := some { text := [lit "b"]
                         options := [(lit "tag", .single (.str (lit "a")))] } } := by
  decide

/-- C6: an option name appears in the result options as a value sequence
iff its schema entry has multiple true (shape invariant over all inputs
and schemas), and for a multiple option accepted values append in
first-accepted-first order, as on the concrete example tag:a tag:b. -/
theorem c6_multivalue_iff :
    (∀ (s : Str) (cfg : List SearchOption) (r : ParseResult) (res : SearchParams)
      (k : Str) (sv : StoredValue),
      parse s cfg = some r → r.result = some res → lookupStored res.options k = some sv →
      ∃ o, findOption cfg k = some o ∧ sv.isMulti = o.multiple) ∧
    parse (lit "tag:a tag:b") [tagMulti] = some
      { tokens := [{ type := .optionName, content := lit "tag:", suggest := .none },
          { type := .text, content := lit "a", suggest := .spec (some tagMulti) },
          { type := .space, content := [' '], suggest := .options },
          { type := .optionName, content := lit "tag:", suggest := .none },
          { type := .text, content := lit "b", suggest := .spec (some tagMulti) }]
        error := none
        result := some { text := []
                         options := [(lit "tag", .multi [.str (lit "a"), .str (lit "b")])] } } := by
  constructor
  · intro s cfg r res k sv hp hres hlk
    obtain ⟨st', hscan, hinv, hparse⟩ := parse_cases s cfg
    rw [hparse] at hp
    obtain rfl := Option.some.inj hp
    have hres2 : res = { text := st'.text, options := st'.options } :=
      (Option.some.inj hres).symm
    subst hres2
    exact hinv.2.1 k sv hlk
  · decide

/-- C6 witness: on a concrete parse, the stored entry for a multiple
option is a value sequence and the schema entry has multiple true. -/
theorem c6_multivalue_iff_witness :
    ∃ o, findOption [tOptM] (lit "t") = some o ∧
      (StoredValue.multi [JsValue.str (lit "a")]).isMulti = o.multiple :=
  c6_multivalue_iff.1 (lit "t:a") [tOptM]
    { tokens := [{ type := .optionName, content := lit "t:", suggest := .none },
        { type := .text, content := lit "a", suggest := .spec (some tOptM) }]
      error := none
      result := some { text := [], options := [(lit "t", .multi [.str (lit "a")])] } }
    { text := [], options := [(lit "t", .multi [.str (lit "a")])] }
    (lit "t") (.multi [.str (lit "a")])
    (by decide) (by decide) (by decide)

/-- C7: when the input ends inside quotes, the pending token is finalized
as Text (completed as an option value when in option-value mode, its
decoded value contributing to the result), the missing quotation mark
error is recorded at the end position when no earlier error exists, and a
MissingQuote token is emitted; concretely on the unterminated-quote input
the free text term still appears. -/
theorem c7_missing_quote :
    (∀ (cfg : List SearchOption) (len : Nat) (st : ParseState),
      StInv cfg st → st.inQuotes = true →
      ∃ st' sg mid, finish len st = some st' ∧
        (st.error = none →
          st'.error = some { position := len, text := "missing quotation mark" }) ∧
        st'.tokens = st.tokens ++
          ({ type := .text, content := st.currentTokenText, suggest := sg } :: mid ++
            [{ type := .missingQuote, content := [], suggest := .none }]) ∧
        (st.inOptionValue = false → st'.text = st.text ++ [st.currentValue] ∧ mid = [])) ∧
    parse (lit "\"unterminated") [] = some
      { tokens := [{ type := .text, content := lit "\"unterminated", suggest := .options },
          { type := .missingQuote, content := [], suggest := .none }]
        error := some { position := 13, text := "missing quotation mark" }
        result := some { text := [lit "unterminated"], options := [] } } ∧
    parse (lit "t:\"ab") [tOptS] = some
      { tokens := [{ type := .optionName, content := lit "t:", suggest := .none },
          { type := .text, content := lit "\"ab", suggest := .spec (some tOptS) },
          { type := .text, content := [], suggest := .spec (some tOptS) },
          { type := .missingQuote, content := [], suggest := .none }]
        error := some { position := 5, text := "missing quotation mark" }
        result := some { text := [], options := [(lit "t", .single (.str (lit "ab")))] } } :=
  ⟨fun cfg len st hinv hq => finish_quote_spec cfg len st hinv hq, by decide, by decide⟩

/-- C7 witness: the end-of-input handling applied to a concrete state
inside quotes. -/
theorem c7_missing_quote_witness :
    ∃ st' sg mid, finish 2 c7state = some st' ∧
      (c7state.error = none →
        st'.error = some { position := 2, text := "missing quotation mark" }) ∧
      st'.tokens = c7state.tokens ++
        ({ type := .text, content := c7state.currentTokenText, suggest := sg } :: mid ++
          [{ type := .missingQuote, content := [], suggest := .none }]) ∧
      (c7state.inOptionValue = false →
        st'.text = c7state.text ++ [c7state.currentValue] ∧ mid = []) :=
  c7_missing_quote.1 [] 2 c7state
    ⟨fun h => by simp [c7state] at h,
     fun k sv h => by simp [c7state, lookupStored] at h,
     fun t ht => by simp [c7state] at ht⟩
    rfl

/-- C8: the suggestion hint of every emitted token follows the
completion-time rule: option-value mode or a MissingOptionValue token
yields the matched spec, a Text or Space token outside option-value mode
yields the Options hint, everything else yields None; consequently in any
parse output every Space token carries Options, every OptionName,
InvalidOptionName or MissingQuote token carries None, and every
MissingOptionValue token carries some schema entry. -/
theorem c8_suggest_rule :
    (∀ (ty : TokenType) (st : ParseState),
      (completeToken ty st).tokens = st.tokens ++
        [{ type := ty, content := st.currentTokenText
           suggest :=
             if st.inOptionValue || ty == TokenType.missingOptionValue then
               .spec st.currentOption
             else if ty == TokenType.text || ty == TokenType.space then .options
             else .none }]) ∧
    (∀ (s : Str) (cfg : List SearchOption) (r : ParseResult),
      parse s cfg = some r → ∀ t ∈ r.tokens,
        (t.type = .space → t.suggest = .options) ∧
        ((t.type = .optionName ∨ t.type = .invalidOptionName ∨ t.type = .missingQuote) →
          t.suggest = .none) ∧
        (t.type = .missingOptionValue →
          ∃ o, t.suggest = .spec (some o) ∧ findOption cfg o.name = some o)) := by
  constructor
  · intro ty st
    rfl
  · intro s cfg r hp t ht
    obtain ⟨st', hscan, hinv, hparse⟩ := parse_cases s cfg
    rw [hparse] at hp
    obtain rfl := Option.some.inj hp
    have hT := hinv.2.2 t ht
    exact ⟨fun h1 => (hT.1 h1).1, hT.2.1, hT.2.2⟩

/-- C8 witness: the rule applied to a concrete parse output token. -/
theorem c8_suggest_rule_witness :
    (Token.type { type := .space, content := [' '], suggest := .options } = .space →
      Token.suggest { type := .space, content := [' '], suggest := .options } = .options) ∧
    ((Token.type { type := .space, content := [' '], suggest := .options } = .optionName ∨
      Token.type { type := .space, content := [' '], suggest := .options } = .invalidOptionName ∨
      Token.type { type := .space, content := [' '], suggest := .options } = .missingQuote) →
      Token.suggest { type := .space, content := [' '], suggest := .options } = .none) ∧
    (Token.type { type := .space, content := [' '], suggest := .options } = .missingOptionValue →
      ∃ o, Token.suggest { type := .space, content := [' '], suggest := .options } =
          .spec (some o) ∧ findOption [] o.name = some o) :=
  c8_suggest_rule.2 (lit " ") []
    { tokens := [{ type := .space, content := [' '], suggest := .options }]
      error := none
      result := some { text := [], options := [] } }
    (by decide) { type := .space, content := [' '], suggest := .options } (by decide)

/-- C9: on inputs with no colon, quote or backslash, the free text is the
input split on whitespace runs, in order, and no option is populated. -/
theorem c9_freetext_words (s : Str) (cfg : List SearchOption)
    (hchar : ∀ c ∈ s, c ≠ ':' ∧ c ≠ '"' ∧ c ≠ '\\') :
    ∃ r, parse s cfg = some r ∧ r.result = some { text := specWords s, options := [] } := by
  obtain ⟨st1, hrun, hcl1, hopts, herr, htext⟩ :=
    runFrom_clean cfg s hchar 0 initState ⟨rfl, rfl, rfl⟩
  obtain ⟨st', hfin, htext2, hopts2, herr2⟩ := finish_clean s.length st1 hcl1
  refine ⟨{ tokens := st'.tokens, error := st'.error
            result := some { text := st'.text, options := st'.options } }, ?_, ?_⟩
  · simp [parse, scanAll, hrun, hfin]
  · have ht : st'.text = specWords s := by
      rw [htext2, htext]
      simp [initState, specWords]
    have ho : st'.options = [] := by
      rw [hopts2, hopts]
      rfl
    rw [ht, ho]

/-- C9 witness: a concrete clean input splits into its words. -/
theorem c9_freetext_words_witness :
    ∃ r, parse (lit " a  b ") [] = some r ∧
      r.result = some { text := specWords (lit " a  b "), options := [] } :=
  c9_freetext_words (lit " a  b ") [] (by decide)

/-- C10: every Space token in any parse output has content equal to the
one-character string consisting of one ASCII space, no matter which
whitespace character was consumed. -/
theorem c10_space_content (s : Str) (cfg : List SearchOption) (r : ParseResult)
    (h : parse s cfg = some r) :
    ∀ t ∈ r.tokens, t.type = .space → t.content = [' '] := by
  obtain ⟨st', hscan, hinv, hparse⟩ := parse_cases s cfg
  rw [hparse] at h
  obtain rfl := Option.some.inj h
  intro t ht hty
  exact ((hinv.2.2 t ht).1 hty).2

/-- C10 witness: the Space token produced for a consumed tab has content
one ASCII space. -/
theorem c10_space_content_witness :
    Token.content { type := .space, content := [' '], suggest := .options } = [' '] :=
  c10_space_content (lit "\t") []
    { tokens := [{ type := .space, content := [' '], suggest := .options }]
      error := none
      result := some { text := [], options := [] } }
    (by decide) { type := .space, content := [' '], suggest := .options } (by decide) rfl

end SearchInput
